import Mathlib

/-!
Shallow embedding of the dartsatlas scrapers (src/run_scrapers.py and
src/yorkshire.py) and proofs about them.

Modelling conventions:
- Python strings are Lean `String`/`List Char`; the ASCII fragment of the
  Python `re` character classes (`\s`, `\w`, `\d`, `[A-Za-z]`) is modelled,
  matching the inputs the program handles.
- Python `float` values that arise in this program are exact decimals
  (captured by the regex fragment `\d+(\.\d+)?`), modelled as `ℚ`.
- HTML-tree / browser collaborators (BeautifulSoup parsing, Selenium
  rendering, HTTP fetching) are out of scope in the spec and are passed in
  as explicit function parameters or as already-extracted node/anchor lists.
- Fallible Python code (`try/except`) returns `Option`.
-/

namespace Darts

/-- Python whitespace (`str.split`, regex `\s`), ASCII fragment. -/
def isPySpace (c : Char) : Bool :=
  c = ' ' || c = '\t' || c = '\n' || c = '\r' || c = '\x0b' || c = '\x0c'

/-- Python regex `\w` word character, ASCII fragment: alphanumerics and underscore. -/
def isWordChar (c : Char) : Bool :=
  c.isAlphanum || c = '_'

/-- Split into maximal runs of non-whitespace, as Python `str.split()`.
`acc` is the (reversed) word currently being read. -/
def pyWordsAux (acc : List Char) : List Char → List (List Char)
  | [] => if acc.isEmpty then [] else [acc.reverse]
  | c :: cs =>
    if isPySpace c then
      if acc.isEmpty then pyWordsAux [] cs else acc.reverse :: pyWordsAux [] cs
    else pyWordsAux (c :: acc) cs

/-- Join words with single spaces, as Python `" ".join(...)`. -/
def joinSp : List (List Char) → List Char
  | [] => []
  | [w] => w
  | w :: ws => w ++ ' ' :: joinSp ws

/-- Python `" ".join(text.split())`: collapse whitespace runs to single spaces
and strip leading/trailing whitespace. -/
def collapse (s : String) : String :=
  String.mk (joinSp (pyWordsAux [] s.data))

/-- Python `str.strip()` (ASCII whitespace fragment). -/
def pyStrip (s : String) : String :=
  String.mk (((s.data.dropWhile isPySpace).reverse.dropWhile isPySpace).reverse)

/-- Value of a nonempty digit string, as Python `int`. -/
def digitsToNat (cs : List Char) : Nat :=
  cs.foldl (fun n c => n * 10 + (c.toNat - 48)) 0

/-- Substring containment on character lists, as Python `pat in s`. -/
def containsSubL (pat : List Char) : List Char → Bool
  | [] => pat.isEmpty
  | c :: rest => pat.isPrefixOf (c :: rest) || containsSubL pat rest

/-- Substring containment, as Python `pat in s`. -/
def containsSub (pat s : String) : Bool :=
  containsSubL pat.data s.data

/-- Python `s.startswith(p)`. -/
def strStartsWith (s p : String) : Bool :=
  p.data.isPrefixOf s.data

/-- Python `s.endswith(p)`. -/
def strEndsWith (s p : String) : Bool :=
  p.data.isSuffixOf s.data

/-- Python `s.lower()` (ASCII fragment). -/
def strToLower (s : String) : String :=
  String.mk (s.data.map Char.toLower)

/-- Order-preserving deduplication keeping first occurrences, the
`seen`-set idiom used throughout both scripts
(`if u in seen: continue / seen.add(u)` and `dict.fromkeys`). -/
def pyDedup [DecidableEq α] (seen : List α) : List α → List α
  | [] => []
  | x :: xs => if x ∈ seen then pyDedup seen xs else x :: pyDedup (x :: seen) xs

/-- Python `s.rstrip("/")`: drop all trailing `/` characters. -/
def rstripSlash (s : String) : String :=
  String.mk ((s.data.reverse.dropWhile (fun c => c = '/')).reverse)

/-- Prefix of `s` up to (excluding) the first occurrence of `ch`;
Python `s.split(ch, 1)[0]`. -/
def cutAt (ch : Char) (s : List Char) : List Char :=
  (List.span (fun c => c ≠ ch) s).1

/-- Strip query string and fragment: `href.split("?", 1)[0].split("#", 1)[0]`. -/
def stripQueryFrag (s : String) : String :=
  String.mk (cutAt '#' (cutAt '?' s.data))

/-! ## Calendar dates (`datetime.date`) -/

/-- A calendar date as produced by `datetime.date(y, m, d)`. -/
structure PyDate where
  year : Nat
  month : Nat
  day : Nat
deriving DecidableEq, Repr

/-- Lexicographic strict order on dates, as Python `date.__lt__`. -/
def dateLtB (a b : PyDate) : Bool :=
  Nat.blt a.year b.year ||
    (a.year == b.year && (Nat.blt a.month b.month ||
      (a.month == b.month && Nat.blt a.day b.day)))

/-- Gregorian leap-year rule used by `datetime`. -/
def isLeap (y : Nat) : Bool :=
  y % 4 = 0 && (y % 100 ≠ 0 || y % 400 = 0)

/-- Number of days of month `m` in year `y` (`0` for an invalid month). -/
def daysInMonth (y m : Nat) : Nat :=
  match m with
  | 1 => 31 | 2 => if isLeap y then 29 else 28 | 3 => 31 | 4 => 30
  | 5 => 31 | 6 => 30 | 7 => 31 | 8 => 31
  | 9 => 30 | 10 => 31 | 11 => 30 | 12 => 31
  | _ => 0

/-- Month number of a 3-letter month abbreviation, as
`datetime.strptime(mon, "%b")` (case-insensitive, C locale). -/
def monthOf (s : String) : Option Nat :=
  match strToLower s with
  | "jan" => some 1 | "feb" => some 2 | "mar" => some 3 | "apr" => some 4
  | "may" => some 5 | "jun" => some 6 | "jul" => some 7 | "aug" => some 8
  | "sep" => some 9 | "oct" => some 10 | "nov" => some 11 | "dec" => some 12
  | _ => none

/-! ## Date extractor

`DATE_RE = re.compile(r"\b(20\d{2})\s+([A-Za-z]{3})\s+(\d{1,2})\b")`
searched with `re.search` (leftmost match).  The scanner below implements
the backtracking semantics of this pattern: the leading `\b` reduces to
"previous character is not a word character" (the first matched character
`2` is always a word character); `\d{1,2}\b` succeeds exactly when the
maximal digit run at that point has length 1 or 2 and is followed by a
non-word character or the end of the input. -/

/-- One-or-more whitespace, regex `\s+` (greedy; the following pattern
pieces here can never match whitespace, so no backtracking arises). -/
def eatWS1 (cs : List Char) : Option (List Char) :=
  match List.span isPySpace cs with
  | ([], _) => none
  | (_ :: _, rest) => some rest

/-- Zero-or-more whitespace, regex `\s*`. -/
def eatWS0 (cs : List Char) : List Char :=
  cs.dropWhile isPySpace

/-- One-or-more digits, regex `\d+` (greedy), returning the digit run. -/
def eatDigits1 (cs : List Char) : Option (List Char × List Char) :=
  match List.span Char.isDigit cs with
  | ([], _) => none
  | (d :: ds, rest) => some (d :: ds, rest)

/-- Attempt of `DATE_RE` (without the leading `\b`) at the start of `cs`;
returns the three captured groups. -/
def dateMatchAt : List Char → Option (String × String × String)
  | '2' :: '0' :: c3 :: c4 :: rest =>
    if c3.isDigit && c4.isDigit then
      match eatWS1 rest with
      | none => none
      | some r1 =>
        match r1 with
        | a :: b :: c :: r2 =>
          if a.isAlpha && b.isAlpha && c.isAlpha then
            match eatWS1 r2 with
            | none => none
            | some r3 =>
              match List.span Char.isDigit r3 with
              | (ds, r4) =>
                if (ds.length = 1 || ds.length = 2) &&
                    !(match r4.head? with | none => false | some c5 => isWordChar c5) then
                  some (String.mk ['2', '0', c3, c4], String.mk [a, b, c], String.mk ds)
                else none
          else none
        | _ => none
    else none
  | _ => none

/-- Word-boundary condition before a match of `DATE_RE` starting at index `i`:
the previous character, if any, must not be a word character. -/
def prevCharAt (cs : List Char) (i : Nat) : Option Char :=
  if i = 0 then none else cs.get? (i - 1)

/-- Word-boundary test for a match starting after character `prev` (the
first matched character `'2'` is a word character, so `\b` holds exactly
when `prev` is absent or not a word character). -/
def boundaryOkB : Option Char → Bool
  | none => true
  | some c => !isWordChar c

/-- `DATE_RE` attempt at index `i` of `cs`, including the leading `\b`. -/
def dateHitAt (cs : List Char) (i : Nat) : Option (String × String × String) :=
  if boundaryOkB (prevCharAt cs i) then dateMatchAt (cs.drop i) else none

/-- First success of `f` on `i, i+1, ..., i+n-1` (leftmost-match scan). -/
def firstHitFrom (f : Nat → Option α) : Nat → Nat → Option α
  | _, 0 => none
  | i, n + 1 =>
    match f i with
    | some a => some a
    | none => firstHitFrom f (i + 1) n

/-- `DATE_RE.search`: leftmost match of the date pattern. -/
def searchDate (cs : List Char) : Option (String × String × String) :=
  firstHitFrom (dateHitAt cs) 0 (cs.length + 1)

/-- Date extractor `parse_date` (identical in both scripts): collapse
whitespace, search `DATE_RE`, then `strptime("%b")` the month and build
`datetime.date`, returning `none` on any failure. -/
def parse_date (text : String) : Option PyDate :=
  match searchDate (collapse text).data with
  | none => none
  | some (y, mon, d) =>
    match monthOf mon with
    | none => none
    | some m =>
      let yn := digitsToNat y.data
      let dn := digitsToNat d.data
      if 1 ≤ dn ∧ dn ≤ daysInMonth yn m then some ⟨yn, m, dn⟩ else none

/-! ## Link classifier

`TOUR_PATH_RE = re.compile(r"^/tournaments/([A-Za-z0-9]+)$")` used with
`re.match`, plus the reserved-slug check.  Note Python's `$` (without
`re.MULTILINE`) also matches just before a single newline at the very end
of the string. -/

/-- Reserved slugs `RESERVED_SLUGS` (identical in both scripts). -/
def RESERVED_SLUGS : List String :=
  ["schedule", "results", "groups", "matches", "tournaments"]

/-- Match of `TOUR_PATH_RE` against `path`, returning the captured id.
`[A-Za-z0-9]+` is greedy and `$` accepts either the end of the string or a
single trailing newline, so the match succeeds exactly when everything
after `/tournaments/` is a nonempty alphanumeric run optionally followed
by one final `'\n'`. -/
def tourPathMatch (path : String) : Option String :=
  if "/tournaments/".data.isPrefixOf path.data then
    match List.span Char.isAlphanum (path.data.drop "/tournaments/".data.length) with
    | ([], _) => none
    | (d :: ds, []) => some (String.mk (d :: ds))
    | (d :: ds, ['\n']) => some (String.mk (d :: ds))
    | (_ :: _, _ :: _) => none
  else none

/-- Link classifier `is_valid_tournament_path` (identical in both scripts). -/
def is_valid_tournament_path (path : String) : Bool :=
  match tourPathMatch path with
  | none => false
  | some slug => !(RESERVED_SLUGS.contains (strToLower slug))

/-! ## Average extractor

run_scrapers.py:
`BESTOF_PAIR_RE = Best\s+of\s+\d+\s+(.+?)\s+\d+\s+(.+?)\s+\d+\s+(\d+(?:\.\d+)?)\s*Avg\s+(\d+(?:\.\d+)?)\s*Avg`
(IGNORECASE), applied to whitespace-collapsed page text.

yorkshire.py:
`PAIR_RE = ([^\r\n\d]+?)\s+\d+\s+([^\r\n\d]+?)\s+\d+\s+(\d+(?:\.\d+)?)\s*Avg\s+(\d+(?:\.\d+)?)\s*Avg`
(IGNORECASE), applied to raw rendered text.

Both are implemented below by a direct backtracking matcher.  The lazy
groups (`+?`) try the shortest expansion first and grow on continuation
failure; the greedy pieces (`\s+`, `\d+`, `\d+(?:\.\d+)?`, `\s*`) never
need backtracking in these patterns because each is followed by a pattern
piece that cannot match a character of the preceding class (spelled out in
the comments of the claim proofs). -/

/-- The four captured groups of one pair-pattern match. -/
structure PairMatch where
  p1 : String
  p2 : String
  v1 : String
  v2 : String
deriving DecidableEq, Repr

/-- Case-insensitive literal (regex with `re.IGNORECASE`); `lit` is given
in lowercase. -/
def eatCI (lit : List Char) (cs : List Char) : Option (List Char) :=
  match lit, cs with
  | [], rest => some rest
  | _ :: _, [] => none
  | l :: ls, c :: cs' => if c.toLower = l then eatCI ls cs' else none

/-- Decimal capture `(\d+(?:\.\d+)?)`: greedy digits, then optionally a
dot followed by one-or-more digits (the option is skipped if it cannot
complete). -/
def eatDec (cs : List Char) : Option (List Char × List Char) :=
  match eatDigits1 cs with
  | none => none
  | some (ds, rest) =>
    match rest with
    | '.' :: rest2 =>
      match eatDigits1 rest2 with
      | some (fs, rest3) => some (ds ++ '.' :: fs, rest3)
      | none => some (ds, rest)
    | _ => some (ds, rest)

/-- Tail of both pair patterns after the second player group:
`\s+\d+\s+(\d+(?:\.\d+)?)\s*Avg\s+(\d+(?:\.\d+)?)\s*Avg`.
Returns the two decimal captures and the remainder after the match. -/
def matchTail2 (cs : List Char) : Option (String × String × List Char) :=
  (eatWS1 cs).bind fun r1 =>
  (eatDigits1 r1).bind fun dr =>
  (eatWS1 dr.2).bind fun r3 =>
  (eatDec r3).bind fun vr1 =>
  (eatCI ['a', 'v', 'g'] (eatWS0 vr1.2)).bind fun r5 =>
  (eatWS1 r5).bind fun r6 =>
  (eatDec r6).bind fun vr2 =>
  (eatCI ['a', 'v', 'g'] (eatWS0 vr2.2)).bind fun r8 =>
  some (String.mk vr1.1, String.mk vr2.1, r8)

/-- Lazy second player group followed by `matchTail2`:
`(cls+?)` tried shortest-first.  `acc` is the group read so far, reversed. -/
def lazyP2 (cls : Char → Bool) (acc : List Char) :
    List Char → Option (String × String × String × List Char)
  | [] => none
  | c :: rest =>
    if cls c then
      match matchTail2 rest with
      | some (v1, v2, fin) => some (String.mk (c :: acc).reverse, v1, v2, fin)
      | none => lazyP2 cls (c :: acc) rest
    else none

/-- Continuation after the first player group: `\s+\d+\s+` then the lazy
second group. -/
def afterP1 (cls : Char → Bool) (cs : List Char) :
    Option (String × String × String × List Char) :=
  (eatWS1 cs).bind fun r1 =>
  (eatDigits1 r1).bind fun dr =>
  (eatWS1 dr.2).bind fun r3 =>
  lazyP2 cls [] r3

/-- Lazy first player group followed by `afterP1`, shortest-first. -/
def lazyP1 (cls : Char → Bool) (acc : List Char) :
    List Char → Option (PairMatch × List Char)
  | [] => none
  | c :: rest =>
    if cls c then
      match afterP1 cls rest with
      | some (p2, v1, v2, fin) =>
        some (⟨String.mk (c :: acc).reverse, p2, v1, v2⟩, fin)
      | none => lazyP1 cls (c :: acc) rest
    else none

/-- Character class of `.` (no DOTALL): everything except `'\n'`. -/
def dotCls (c : Char) : Bool := c ≠ '\n'

/-- Character class `[^\r\n\d]` (ASCII digit fragment). -/
def pairCls (c : Char) : Bool := !(c = '\r' || c = '\n' || c.isDigit)

/-- `BESTOF_PAIR_RE` attempt at the start of `cs`:
`Best\s+of\s+\d+\s+` then the two lazy `(.+?)` groups and the shared tail. -/
def matchBestofAt (cs : List Char) : Option (PairMatch × List Char) :=
  (eatCI ['b', 'e', 's', 't'] cs).bind fun r1 =>
  (eatWS1 r1).bind fun r2 =>
  (eatCI ['o', 'f'] r2).bind fun r3 =>
  (eatWS1 r3).bind fun r4 =>
  (eatDigits1 r4).bind fun dr =>
  (eatWS1 dr.2).bind fun r6 =>
  lazyP1 dotCls [] r6

/-- `PAIR_RE` attempt at the start of `cs`: the two lazy `[^\r\n\d]+?`
groups and the shared tail. -/
def matchPairAt (cs : List Char) : Option (PairMatch × List Char) :=
  lazyP1 pairCls [] cs

/-- `re.finditer` scan: try a match at each position left to right,
continuing after the end of each (nonempty) match.  `fuel` bounds the
recursion; every successful match of these patterns consumes at least one
character, so `cs.length + 1` fuel is enough. -/
def finditerAux (matchAt : List Char → Option (PairMatch × List Char)) :
    List Char → Nat → List PairMatch
  | _, 0 => []
  | cs, n + 1 =>
    match matchAt cs with
    | some (m, rest) => m :: finditerAux matchAt rest n
    | none =>
      match cs with
      | [] => []
      | _ :: cs' => finditerAux matchAt cs' n

/-- All `BESTOF_PAIR_RE` matches of `cs`, in text order. -/
def finditerBestof (cs : List Char) : List PairMatch :=
  finditerAux matchBestofAt cs (cs.length + 1)

/-- All `PAIR_RE` matches of `cs`, in text order. -/
def finditerPair (cs : List Char) : List PairMatch :=
  finditerAux matchPairAt cs (cs.length + 1)

/-! ## Decimal values (`float(...)` on regex captures) -/

/-- Shape `\d+(\.\d+)?` of the decimal captures. -/
def decShapeL (cs : List Char) : Bool :=
  match List.span Char.isDigit cs with
  | ([], _) => false
  | (_ :: _, rest) =>
    match rest with
    | [] => true
    | '.' :: fs => !fs.isEmpty && fs.all Char.isDigit
    | _ => false

/-- Shape `\d+(\.\d+)?` on strings. -/
def decShape (s : String) : Bool := decShapeL s.data

/-- Exact value of a `\d+(\.\d+)?` decimal string. -/
def decValQ (s : String) : ℚ :=
  match List.span Char.isDigit s.data with
  | (ip, rest) =>
    match rest with
    | '.' :: fp => (digitsToNat ip : ℚ) + (digitsToNat fp : ℚ) / ((10 : ℚ) ^ fp.length)
    | _ => (digitsToNat ip : ℚ)

/-- Python `float(s)`, modelled on the decimal fragment the program feeds
it (`float` accepts a superset of `decShape`; all strings this program
passes to it satisfy `decShape`, as proved below, so the models agree on
every reachable input). -/
def pyFloat (s : String) : Option ℚ :=
  if decShape s then some (decValQ s) else none

/-! ## The two average-extractor functions -/

/-- run_scrapers.py `parse_player_avgs_from_html`.  The BeautifulSoup text
extraction `soup.get_text(" ", strip=True)` is an external collaborator;
`docText` is its result, and the source's whitespace collapse
`" ".join(text.split())` is applied here as in the code. -/
def parse_player_avgs_from_html (docText : String) : List (String × ℚ) :=
  (finditerBestof (collapse docText).data).foldl
    (fun out m =>
      match pyFloat m.v1, pyFloat m.v2 with
      | some v1, some v2 => out ++ [(pyStrip m.p1, v1), (pyStrip m.p2, v2)]
      | _, _ => out) []

/-- yorkshire.py `parse_player_avgs`, applied to the raw rendered text. -/
def parse_player_avgs (text : String) : List (String × ℚ) :=
  (finditerPair text.data).foldl
    (fun out m =>
      match pyFloat m.v1, pyFloat m.v2 with
      | some v1, some v2 => out ++ [(pyStrip m.p1, v1), (pyStrip m.p2, v2)]
      | _, _ => out) []

/-! ## Loops with early exit (`for ... break`) -/

/-- Outcome of one loop iteration: continue with the new state, or `break`. -/
inductive LoopOut (σ : Type) where
  | cont (st : σ)
  | stop (st : σ)

/-- Run a `for` loop with `break` over a list. -/
def runLoop (step : σ → α → LoopOut σ) : List α → σ → LoopOut σ
  | [], st => .cont st
  | x :: xs, st =>
    match step st x with
    | .cont st' => runLoop step xs st'
    | .stop st' => .stop st'

/-- Final state of a `for` loop with `break`. -/
def loopState (step : σ → α → LoopOut σ) (xs : List α) (st : σ) : σ :=
  match runLoop step xs st with
  | .cont s => s
  | .stop s => s

/-! ## Window scanner, document-order strategy (run_scrapers.py) -/

/-- A node of `soup.body.descendants` in document order.  `txt` is a
`NavigableString`; `a` is an `<a>` tag carrying its `href` attribute
(`none` when absent) and its rendered text `get_text(" ", strip=True)`
(HTML parsing itself is the external collaborator); `other` is any other
tag or element. -/
inductive Node where
  | txt (s : String)
  | a (href : Option String) (atext : String)
  | other
deriving DecidableEq

/-- Loop state of `RS.collect_yesterday_tournaments`. -/
structure RsState where
  results : List (String × String)
  seen : List String
  current : Option PyDate
  found : Bool
deriving DecidableEq

namespace RS

/-- One iteration of the document-order traversal of
run_scrapers.py `collect_yesterday_tournaments`. -/
def step (today yesterday : PyDate) (st : RsState) : Node → LoopOut RsState
  | .txt s =>
    match parse_date s with
    | some d => .cont { st with current := some d }
    | none => .cont st
  | .a href? atext =>
    let href := href?.getD ""
    if !strStartsWith href "/" then .cont st
    else
      let href := stripQueryFrag href
      if !is_valid_tournament_path href then .cont st
      else
        match st.current with
        | none => .cont st
        | some d =>
          if d = today then .cont st
          else if dateLtB d yesterday && st.found then .stop st
          else if d = yesterday then
            let st := { st with found := true }
            let full := "https://www.dartsatlas.com" ++ href
            if st.seen.contains full then .cont st
            else
              let title := collapse atext
              let title := if title = "" then full else title
              .cont { st with seen := full :: st.seen,
                              results := st.results ++ [(title, full)] }
          else .cont st
  | .other => .cont st

/-- run_scrapers.py `collect_yesterday_tournaments`: document-order
traversal keeping a current date, collecting yesterday-dated tournament
links, skipping today, stopping once older than yesterday after a hit.
The HTTP fetch and HTML parse are collaborators; `nodes` is the parsed
document's descendant sequence. -/
def collect_yesterday_tournaments (nodes : List Node) (today yesterday : PyDate) :
    List (String × String) :=
  (loopState (step today yesterday) nodes ⟨[], [], none, false⟩).results

end RS

/-! ## Window scanner, DOM-proximity strategy (yorkshire.py) -/

/-- A rendered `<a>` element as seen through the Selenium collaborator:
its `href` attribute (already absolutized by the browser; `""` when
absent), its `text`, and the texts of its successive enclosing elements,
innermost first (the chain `find_element(By.XPATH, "..")` walks; the list
ends where that lookup raises). -/
structure Anchor where
  href : String
  atext : String
  ancestors : List String
deriving DecidableEq

/-- Part of the string after the first occurrence of `sep`
(Python `s.split(sep, 1)[1]`, `none` when `sep` does not occur). -/
def afterFirst (sep : List Char) : List Char → Option (List Char)
  | [] => none
  | c :: rest =>
    if sep.isPrefixOf (c :: rest) then some ((c :: rest).drop sep.length)
    else afterFirst sep rest

/-- yorkshire.py `href_to_path`. -/
def href_to_path (href : String) : String :=
  if href = "" then ""
  else
    let h := stripQueryFrag href
    if strStartsWith h "http" then
      match afterFirst "://".data h.data with
      | none => ""
      | some rest =>
        match afterFirst ['/'] rest with
        | none => ""
        | some tail => String.mk ('/' :: tail)
    else if strStartsWith h "/" then h
    else "/" ++ h

/-- Python `str.splitlines()` (ASCII fragment: `\n`, `\r`, `\r\n`). -/
def splitLinesAux (acc : List Char) : List Char → List (List Char)
  | [] => if acc.isEmpty then [] else [acc.reverse]
  | '\r' :: '\n' :: rest => acc.reverse :: splitLinesAux [] rest
  | '\r' :: rest => acc.reverse :: splitLinesAux [] rest
  | '\n' :: rest => acc.reverse :: splitLinesAux [] rest
  | c :: rest => splitLinesAux (c :: acc) rest

/-- Python `str.splitlines()`. -/
def splitLines (s : String) : List String :=
  (splitLinesAux [] s.data).map String.mk

/-- Bounded ancestor walk of yorkshire.py `find_card_with_date`: up to 25
parent steps; empty-text ancestors consume an iteration; the first
ancestor whose text yields a date is returned with its stripped text. -/
def findCardGo : List String → Nat → Option (String × PyDate)
  | _, 0 => none
  | [], _ + 1 => none
  | t :: rest, n + 1 =>
    let ts := pyStrip t
    if ts = "" then findCardGo rest n
    else
      match parse_date ts with
      | some d => some (ts, d)
      | none => findCardGo rest n

/-- yorkshire.py `find_card_with_date`. -/
def find_card_with_date (ancestors : List String) : Option (String × PyDate) :=
  findCardGo ancestors 25

/-- Loop state of `YK.collect_yesterday_tournaments`. -/
structure YkState where
  results : List (String × String)
  seen : List String
  found : Bool
deriving DecidableEq

namespace YK

/-- One iteration of the anchor loop of yorkshire.py
`collect_yesterday_tournaments`. -/
def step (today yesterday : PyDate) (st : YkState) (a : Anchor) : LoopOut YkState :=
  let path := href_to_path a.href
  if !is_valid_tournament_path path then .cont st
  else
    match find_card_with_date a.ancestors with
    | none => .stop st
    | some (cardText, d) =>
      if d = today then .cont st
      else if dateLtB d yesterday then .stop st
      else if d = yesterday then
        let st := { st with found := true }
        let url := "https://www.dartsatlas.com" ++ path
        if st.seen.contains url then .cont st
        else
          let title := pyStrip a.atext
          let title :=
            if title = "" then
              let lns := ((splitLines cardText).map pyStrip).filter (fun ln => ln ≠ "")
              let lns := lns.filter (fun ln => (searchDate ln.data).isNone)
              match lns with
              | [] => url
              | ln :: _ => ln
            else title
          .cont { st with seen := url :: st.seen,
                          results := st.results ++ [(title, url)] }
      else .cont st

/-- yorkshire.py `collect_yesterday_tournaments`: per-anchor scan with
DOM-proximity date lookup.  Navigation and rendering are collaborators;
`anchors` is the rendered list `find_elements("a[href^='/tournaments/']")`. -/
def collect_yesterday_tournaments (anchors : List Anchor) (today yesterday : PyDate) :
    List (String × String) :=
  (loopState (step today yesterday) anchors ⟨[], [], false⟩).results

end YK

/-! ## Tournament scraper -/

/-- Fixed threshold `THRESHOLD = 85.0` (identical in both scripts). -/
def THRESHOLD : ℚ := 85

/-- A report row `(avg, player, tournament, section)` of run_scrapers.py. -/
abbrev Row := ℚ × String × String × String

/-- yorkshire.py `AvgRow` (the `section` field is spelled `sect` because
`section` is a Lean keyword). -/
structure AvgRow where
  value : ℚ
  player : String
  tournament : String
  sect : String
deriving DecidableEq, Repr

namespace RS

/-- Group-page link extraction of run_scrapers.py `scrape_tournament`:
`hrefs` are the `href` attributes found by the selector collaborator
(`""` for a missing attribute, as `a.get("href") or ""`); keep those
containing `/group/`, absolutize root-relative ones, and deduplicate
keeping first occurrences. -/
def group_links (hrefs : List String) : List String :=
  pyDedup []
    (hrefs.filterMap (fun h =>
      if containsSub "/group/" h then
        some (if strStartsWith h "/" then "https://www.dartsatlas.com" ++ h else h)
      else none))

/-- run_scrapers.py `scrape_tournament`.  `fetchText` composes the HTTP
fetch with the BeautifulSoup text extraction (both collaborators);
`selectGroupHrefs` is the `select("a[href*='/group/']")` collaborator on
the groups page. -/
def scrape_tournament (fetchText : String → String) (selectGroupHrefs : String → List String)
    (title base_url : String) : List Row :=
  let base := rstripSlash base_url
  let matchesRows := (parse_player_avgs_from_html (fetchText (base ++ "/results"))).filterMap
    (fun pa => if THRESHOLD ≤ pa.2 then some (pa.2, pa.1, title, "matches") else none)
  let glinks := group_links (selectGroupHrefs (base ++ "/groups"))
  let groupRows := glinks.flatMap (fun gl =>
    (parse_player_avgs_from_html (fetchText gl)).filterMap
      (fun pa => if THRESHOLD ≤ pa.2 then some (pa.2, pa.1, title, "groups") else none))
  matchesRows ++ groupRows

end RS

namespace YK

/-- Group-page link extraction of yorkshire.py `scrape_tournament`:
`hrefs` are `get_attribute("href")` values (`""` when the attribute is
missing, making `if href` false); keep those containing `/group/` and
deduplicate keeping first occurrences (`dict.fromkeys`). -/
def group_links (hrefs : List String) : List String :=
  pyDedup [] (hrefs.filter (fun h => h ≠ "" && containsSub "/group/" h))

/-- yorkshire.py `scrape_tournament`.  `scrapeText` is the rendered
body-text collaborator (`scrape_text`); `groupHrefs` lists the anchors of
the groups page. -/
def scrape_tournament (scrapeText : String → String) (groupHrefs : String → List String)
    (title base_url : String) : List AvgRow :=
  let base := rstripSlash base_url
  let matchesRows := (parse_player_avgs (scrapeText (base ++ "/results"))).filterMap
    (fun pa => if THRESHOLD ≤ pa.2 then some ⟨pa.2, pa.1, title, "matches"⟩ else none)
  let glinks := group_links (groupHrefs (base ++ "/groups"))
  let groupRows := glinks.flatMap (fun gl =>
    (parse_player_avgs (scrapeText gl)).filterMap
      (fun pa => if THRESHOLD ≤ pa.2 then some ⟨pa.2, pa.1, title, "groups"⟩ else none))
  matchesRows ++ groupRows

end YK

/-! ## Report writer -/

/-- Round to the nearest integer, ties to even (the rounding of
`f"{v:.2f}"` at this decimal position). -/
def roundHalfEven (x : ℚ) : ℤ :=
  let f := Int.floor x
  let r := x - f
  if r < 1 / 2 then f
  else if 1 / 2 < r then f + 1
  else if f % 2 = 0 then f else f + 1

/-- Two-decimal-digit string of `k % 100`. -/
def twoDigits (k : Nat) : String :=
  String.mk [Nat.digitChar (k / 10 % 10), Nat.digitChar (k % 10)]

/-- Python `f"{v:.2f}"`: the value with exactly two digits after the
decimal point. -/
def fmt2 (q : ℚ) : String :=
  let n := roundHalfEven (q * 100)
  let m := n.natAbs
  (if n < 0 then "-" else "") ++ toString (m / 100) ++ "." ++ twoDigits (m % 100)

/-- One CSV-like data line of run_scrapers.py `write_report`
(`f"{avg:.2f},{player},{tournament},{section}"`). -/
def renderRow (r : Row) : String :=
  fmt2 r.1 ++ "," ++ r.2.1 ++ "," ++ r.2.2.1 ++ "," ++ r.2.2.2

/-- One CSV-like data line of yorkshire.py `write_report`. -/
def renderAvgRow (r : AvgRow) : String :=
  fmt2 r.value ++ "," ++ r.player ++ "," ++ r.tournament ++ "," ++ r.sect

/-- Stable insertion of `x` into a descending-by-`key` list: elements with
strictly greater key stay in front, so equal keys keep their original
relative order — the behaviour of Python's stable
`sorted(..., key=value, reverse=True)`. -/
def insDesc (key : α → ℚ) (x : α) : List α → List α
  | [] => [x]
  | y :: ys => if key x < key y then y :: insDesc key x ys else x :: y :: ys

/-- Stable descending sort by `key`, as `sorted(..., key=..., reverse=True)`. -/
def sortDesc (key : α → ℚ) : List α → List α
  | [] => []
  | x :: xs => insDesc key x (sortDesc key xs)

namespace RS

/-- run_scrapers.py `write_report`, as the text written to the report
file: deduplicate by full tuple, sort descending by average, emit the
header line and one rendered line per row.  (CPython iterates the `uniq`
set in an unspecified order; it is modelled here as first-occurrence
order, which the subsequent value-keyed sort makes observationally
irrelevant up to the order of equal-valued rows.) -/
def write_report (rows : List Row) : String :=
  let uniq := pyDedup [] rows
  let sorted_rows := sortDesc (fun r => r.1) uniq
  "Value,Player,Tournament,Section\n" ++
    String.join (sorted_rows.map (fun r => renderRow r ++ "\n"))

/-- File state after run_scrapers.py `main` writes one region's report:
`open(report_path, "w")` truncates/creates, so the resulting content is
`write_report` of the collected rows regardless of the previous file
state, and a file always exists afterwards. -/
def regionReportFile (_prev : Option String) (rows : List Row) : Option String :=
  some (write_report rows)

end RS

namespace YK

/-- yorkshire.py `write_report` as the text written to `REPORT_PATH`
(dedup via a dict keyed by the full tuple: first-occurrence order, the
value overwritten by an identical row). -/
def write_report (rows : List AvgRow) : String :=
  let uniq := pyDedup [] rows
  let sorted_rows := sortDesc (fun r => r.value) uniq
  "Value,Player,Tournament,Section\n" ++
    String.join (sorted_rows.map (fun r => renderAvgRow r ++ "\n"))

/-- Report-file state after yorkshire.py `main` (from the point the
tournament list is known): when no tournaments were collected, `main`
returns before `write_report`, leaving the file state unchanged (`prev`,
so no file is created on a fresh run); otherwise the per-tournament rows
are accumulated and written. -/
def mainReportFile (tournaments : List (String × String))
    (scrape : String → String → List AvgRow) (prev : Option String) : Option String :=
  if tournaments.isEmpty then prev
  else some (write_report (tournaments.foldl (fun acc tu => acc ++ scrape tu.1 tu.2) []))

end YK

/-! ## Region config loader (run_scrapers.py) -/

/-- Split on `'\n'`, the line structure `re.MULTILINE` anchors to. -/
def splitNlAux (acc : List Char) : List Char → List (List Char)
  | [] => [acc.reverse]
  | '\n' :: rest => acc.reverse :: splitNlAux [] rest
  | c :: rest => splitNlAux (c :: acc) rest

/-- Match of `^\s*KEY\s*=\s*"([^"]+)"\s*$` (with `re.MULTILINE`) against a
single line, returning the quoted capture. -/
def constLineVal (key : List Char) (line : List Char) : Option String :=
  let l1 := line.dropWhile isPySpace
  if key.isPrefixOf l1 then
    match (l1.drop key.length).dropWhile isPySpace with
    | '=' :: l3 =>
      match l3.dropWhile isPySpace with
      | '"' :: l5 =>
        match List.span (fun c => c ≠ '"') l5 with
        | ([], _) => none
        | (v :: vs, rest) =>
          match rest with
          | '"' :: l6 =>
            if l6.dropWhile isPySpace = [] then some (String.mk (v :: vs)) else none
          | _ => none
      | _ => none
    | _ => none
  else none

/-- `SEASON_URL_RE.search` / `REPORT_PATH_RE.search`: first line carrying
the constant. -/
def findConst (key : String) (txt : String) : Option String :=
  (splitNlAux [] txt.data).findSome? (constLineVal key.data)

/-- Python `os.path.isabs` (POSIX). -/
def isAbsPath (p : String) : Bool := strStartsWith p "/"

/-- Python `os.path.join(folder, p)` for a relative `p` (POSIX). -/
def pathJoin (folder p : String) : String :=
  if strEndsWith folder "/" then folder ++ p else folder ++ "/" ++ p

/-- One step of run_scrapers.py `load_region_configs`: the config
extracted from a single directory entry `(filename, filetext)`, `none`
when the file is skipped — non-`.py` files, the runner itself, and any
file missing either constant are skipped; relative report paths are
resolved against `folder`. -/
def regionConfigOf (folder : String) (ft : String × String) : Option (String × String) :=
  if !strEndsWith ft.1 ".py" then none
  else if ft.1 = "run_scrapers.py" then none
  else
    match findConst "SEASON_RESULTS_URL" ft.2, findConst "REPORT_PATH" ft.2 with
    | some u, some p =>
      let url := pyStrip u
      let path := pyStrip p
      some (url, if isAbsPath path then path else pathJoin folder path)
    | _, _ => none

/-- run_scrapers.py `load_region_configs`.  The directory listing and
file reads are collaborators: `files` is the `sorted(os.listdir(folder))`
sequence paired with each file's text. -/
def load_region_configs (folder : String) (files : List (String × String)) :
    List (String × String) :=
  files.filterMap (regionConfigOf folder)

/-- The startup check of run_scrapers.py `main`: zero valid configs raise
`RuntimeError` (fatal, unretried); otherwise the run proceeds with them. -/
def mainConfigGate (cfgs : List (String × String)) : Except String (List (String × String)) :=
  if cfgs.isEmpty then
    .error "Could not find any region scripts with SEASON_RESULTS_URL and REPORT_PATH."
  else .ok cfgs

/-! ## Scenario and claim-side definitions

`c1Nodes`/`c1Anchors` are the C1 synthetic listing; `specValidPath`,
`claimDateShapeAt` and `claimContainsDate` are written from the claims'
words (not from the source) to be compared against the source-derived
definitions above. -/

/-- The date standing for "today" in the C1 scenario. -/
def c1Today : PyDate := ⟨2026, 2, 15⟩

/-- The date standing for the target day ("yesterday") in the C1 scenario. -/
def c1Yesterday : PyDate := ⟨2026, 2, 14⟩

/-- Synthetic document-order listing with entries dated
target+1 (today), target, target, target-1. -/
def c1Nodes : List Node :=
  [ .txt "2026 Feb 15", .a (some "/tournaments/t1") "Today Cup",
    .txt "2026 Feb 14", .a (some "/tournaments/t2") "Alpha Open",
    .txt "2026 Feb 14", .a (some "/tournaments/t3") "Beta Open",
    .txt "2026 Feb 13", .a (some "/tournaments/t4") "Old Cup" ]

/-- The same synthetic listing as rendered anchors with card ancestors,
dated target+1 (today), target, target, target-1. -/
def c1Anchors : List Anchor :=
  [ ⟨"https://www.dartsatlas.com/tournaments/t1", "Today Cup", ["2026 Feb 15 Today Cup"]⟩,
    ⟨"https://www.dartsatlas.com/tournaments/t2", "Alpha Open", ["", "2026 Feb 14 Alpha Open"]⟩,
    ⟨"https://www.dartsatlas.com/tournaments/t3", "Beta Open", ["2026 Feb 14 Beta Open"]⟩,
    ⟨"https://www.dartsatlas.com/tournaments/t4", "Old Cup", ["2026 Feb 13 Old Cup"]⟩ ]

/-- The claim-side classifier: the path is exactly `/tournaments/<id>` with
no trailing characters at all, `<id>` a nonempty alphanumeric run whose
lowercase form is not reserved. -/
def specValidPath (p : String) : Bool :=
  "/tournaments/".data.isPrefixOf p.data &&
    (!(p.data.drop "/tournaments/".data.length).isEmpty &&
      (p.data.drop "/tournaments/".data.length).all Char.isAlphanum &&
      !(RESERVED_SLUGS.contains (strToLower (String.mk
          (p.data.drop "/tournaments/".data.length)))))

/-- The claim-side date shape at one position: any 4-digit year, a
3-letter month, a 1-2 digit day, in the collapsed single-space form. -/
def claimDateShapeAt : List Char → Bool
  | y1 :: y2 :: y3 :: y4 :: ' ' :: m1 :: m2 :: m3 :: ' ' :: d1 :: _ =>
    y1.isDigit && y2.isDigit && y3.isDigit && y4.isDigit &&
      m1.isAlpha && m2.isAlpha && m3.isAlpha && d1.isDigit
  | _ => false

/-- Does `f` hold of some suffix? -/
def anySuffix (f : List Char → Bool) : List Char → Bool
  | [] => f []
  | c :: cs => f (c :: cs) || anySuffix f cs

/-- The claim-side containment test: the collapsed text contains a
substring of the form 4-digit year, 3-letter month, 1-2 digit day. -/
def claimContainsDate (s : String) : Bool :=
  anySuffix claimDateShapeAt (collapse s).data

/-! ## Helper lemmas -/

theorem isPrefixOf_iff_exists_append : ∀ (l m : List Char),
    l.isPrefixOf m = true ↔ ∃ t, m = l ++ t
  | [], m => by simp [List.isPrefixOf]
  | _ :: _, [] => by simp [List.isPrefixOf]
  | a :: as, b :: bs => by
    show (a == b && as.isPrefixOf bs) = true ↔ _
    rw [Bool.and_eq_true, beq_iff_eq, isPrefixOf_iff_exists_append as bs]
    constructor
    · rintro ⟨rfl, t, rfl⟩
      exact ⟨t, rfl⟩
    · rintro ⟨t, h⟩
      injection h with h1 h2
      exact ⟨h1.symm, t, h2⟩

theorem takeWhile_eq_self_of_all {α} (p : α → Bool) :
    ∀ l : List α, l.all p = true → l.takeWhile p = l := by
  intro l h
  induction l with
  | nil => rfl
  | cons x xs ih =>
    simp only [List.all_cons, Bool.and_eq_true] at h
    simp [List.takeWhile_cons, h.1, ih h.2]

theorem dropWhile_eq_nil_of_all {α} (p : α → Bool) :
    ∀ l : List α, l.all p = true → l.dropWhile p = [] := by
  intro l h
  induction l with
  | nil => rfl
  | cons x xs ih =>
    simp only [List.all_cons, Bool.and_eq_true] at h
    simp [List.dropWhile_cons, h.1, ih h.2]

theorem takeWhile_append_of_all {α} (p : α → Bool) (xs ys : List α)
    (h : xs.all p = true) : (xs ++ ys).takeWhile p = xs ++ ys.takeWhile p := by
  induction xs with
  | nil => rfl
  | cons x l ih =>
    simp only [List.all_cons, Bool.and_eq_true] at h
    simp [List.takeWhile_cons, h.1, ih h.2]

theorem dropWhile_append_of_all {α} (p : α → Bool) (xs ys : List α)
    (h : xs.all p = true) : (xs ++ ys).dropWhile p = ys.dropWhile p := by
  induction xs with
  | nil => rfl
  | cons x l ih =>
    simp only [List.all_cons, Bool.and_eq_true] at h
    simp [List.dropWhile_cons, h.1, ih h.2]

theorem all_takeWhile_self {α} (p : α → Bool) :
    ∀ l : List α, (l.takeWhile p).all p = true := by
  intro l
  induction l with
  | nil => rfl
  | cons x xs ih =>
    by_cases h : p x = true
    · simp [List.takeWhile_cons, h, ih]
    · simp [List.takeWhile_cons, Bool.eq_false_iff.mpr h]

theorem dropWhile_head_false {α} (p : α → Bool) :
    ∀ (l : List α) (c : α) (cs : List α), l.dropWhile p = c :: cs → p c = false := by
  intro l
  induction l with
  | nil => intro c cs h; exact absurd h (by simp)
  | cons x xs ih =>
    intro c cs h
    by_cases hx : p x = true
    · exact ih c cs (by simpa [List.dropWhile_cons, hx] using h)
    · rw [List.dropWhile_cons, if_neg (by simp [hx])] at h
      cases h
      exact Bool.eq_false_iff.mpr hx

theorem eq_dropLast_concat_of_getLast? {α} : ∀ (l : List α) (a : α),
    l.getLast? = some a → l = l.dropLast ++ [a]
  | [], a => by simp
  | [b], a => by
    intro h
    simp only [List.getLast?_singleton, Option.some.injEq] at h
    simp [h]
  | b :: c :: cs, a => by
    intro h
    rw [List.getLast?_cons_cons] at h
    have := eq_dropLast_concat_of_getLast? (c :: cs) a h
    calc b :: c :: cs = b :: ((c :: cs).dropLast ++ [a]) := by rw [← this]
      _ = (b :: c :: cs).dropLast ++ [a] := by simp [List.dropLast_cons₂]

theorem runLoop_cons (step : σ → α → LoopOut σ) (x : α) (xs : List α) (st : σ) :
    runLoop step (x :: xs) st =
      match step st x with
      | .cont s => runLoop step xs s
      | .stop s => .stop s := rfl

theorem runLoop_append (step : σ → α → LoopOut σ) (xs ys : List α) (st : σ) :
    runLoop step (xs ++ ys) st =
      match runLoop step xs st with
      | .cont s => runLoop step ys s
      | .stop s => .stop s := by
  induction xs generalizing st with
  | nil => rfl
  | cons x xs ih =>
    show (match step st x with
          | .cont s => runLoop step (xs ++ ys) s
          | .stop s => .stop s) =
        match (match step st x with
               | .cont s => runLoop step xs s
               | .stop s => .stop s) with
        | .cont s => runLoop step ys s
        | .stop s => .stop s
    cases step st x with
    | cont s => exact ih s
    | stop s => rfl

theorem loopState_append (step : σ → α → LoopOut σ) (xs ys : List α) (st : σ) :
    loopState step (xs ++ ys) st =
      match runLoop step xs st with
      | .cont s => loopState step ys s
      | .stop s => s := by
  unfold loopState
  rw [runLoop_append]
  cases runLoop step xs st <;> rfl

/-! ## C1: the synthetic four-entry listing -/

/-- C1: on a synthetic listing dated [target+1 (today), target, target,
target-1], both window-scanner strategies return exactly the two
target-dated entries in encounter order, skip the today-dated entry, and
break at the target-1 entry, so that any material past it is never
processed (appending arbitrary further nodes/anchors cannot change the
result). -/
theorem c1_window_scanner_bounded_listing :
    (∀ extra : List Node,
      RS.collect_yesterday_tournaments (c1Nodes ++ extra) c1Today c1Yesterday =
        [("Alpha Open", "https://www.dartsatlas.com/tournaments/t2"),
         ("Beta Open", "https://www.dartsatlas.com/tournaments/t3")])
    ∧ (∀ extra : List Anchor,
      YK.collect_yesterday_tournaments (c1Anchors ++ extra) c1Today c1Yesterday =
        [("Alpha Open", "https://www.dartsatlas.com/tournaments/t2"),
         ("Beta Open", "https://www.dartsatlas.com/tournaments/t3")]) := by
  refine ⟨fun extra => ?_, fun extra => ?_⟩ <;> rfl

/-! ## C2: proximity-strategy traversal integrity failure -/

theorem yk_step_stop_of_no_card (today yesterday : PyDate) (a : Anchor)
    (hv : is_valid_tournament_path (href_to_path a.href) = true)
    (hc : find_card_with_date a.ancestors = none) (st : YkState) :
    YK.step today yesterday st a = .stop st := by
  simp only [YK.step, hv, hc, Bool.not_true, Bool.false_eq_true, if_false]

/-- C2 (amended): when the proximity scanner meets a valid tournament
link whose 25-level ancestor walk yields no date, it breaks out of the
anchor loop at that link: nothing after the failing link is processed,
and the scan returns the entries collected before it — which is the empty
list exactly when the failure occurs before any target-day entry.  The
function returns normally, so only this listing's scan is abandoned, not
the whole run. -/
theorem c2_proximity_failure_aborts (today yesterday : PyDate) (a : Anchor)
    (hv : is_valid_tournament_path (href_to_path a.href) = true)
    (hc : find_card_with_date a.ancestors = none) :
    (∀ xs extra : List Anchor,
      YK.collect_yesterday_tournaments (xs ++ a :: extra) today yesterday =
        YK.collect_yesterday_tournaments (xs ++ [a]) today yesterday)
    ∧ (∀ extra : List Anchor,
      YK.collect_yesterday_tournaments (a :: extra) today yesterday = []) := by
  have hstop := yk_step_stop_of_no_card today yesterday a hv hc
  constructor
  · intro xs extra
    unfold YK.collect_yesterday_tournaments
    rw [loopState_append, loopState_append]
    cases runLoop (YK.step today yesterday) xs ⟨[], [], false⟩ with
    | cont s =>
      show (loopState (YK.step today yesterday) (a :: extra) s).results =
          (loopState (YK.step today yesterday) [a] s).results
      unfold loopState
      rw [runLoop_cons, runLoop_cons, hstop s]
    | stop s => rfl
  · intro extra
    unfold YK.collect_yesterday_tournaments loopState
    rw [runLoop_cons, hstop]

/-- Witness for C2 at a concrete failing anchor that is the first link. -/
theorem c2_proximity_failure_aborts_witness :
    YK.collect_yesterday_tournaments [⟨"/tournaments/x2", "X", []⟩]
      ⟨2026, 2, 15⟩ ⟨2026, 2, 14⟩ = [] :=
  (c2_proximity_failure_aborts ⟨2026, 2, 15⟩ ⟨2026, 2, 14⟩
    ⟨"/tournaments/x2", "X", []⟩ rfl rfl).2 []

/-- C2 counterexample to the claim as stated: the aborted scan does not
report zero results — a target-day entry collected before the failing
link is still returned, so the result list is not empty. -/
theorem c2_counterexample_partial_results :
    YK.collect_yesterday_tournaments
      [⟨"/tournaments/t2", "Alpha Open", ["2026 Feb 14 Alpha Open"]⟩,
       ⟨"/tournaments/x2", "X", []⟩]
      ⟨2026, 2, 15⟩ ⟨2026, 2, 14⟩ =
        [("Alpha Open", "https://www.dartsatlas.com/tournaments/t2")]
    ∧ find_card_with_date ([] : List String) = none
    ∧ is_valid_tournament_path (href_to_path "/tournaments/x2") = true :=
  ⟨rfl, rfl, rfl⟩

/-! ## C8: the link classifier -/

theorem specValidPath_iff (p : String) :
    specValidPath p = true ↔
      ∃ id : List Char, id ≠ [] ∧ id.all Char.isAlphanum = true ∧
        p.data = "/tournaments/".data ++ id ∧
        RESERVED_SLUGS.contains (strToLower (String.mk id)) = false := by
  unfold specValidPath
  constructor
  · intro h
    simp only [Bool.and_eq_true, Bool.not_eq_true'] at h
    obtain ⟨hpre, ⟨hne, hall⟩, hres⟩ := h
    obtain ⟨t, ht⟩ := (isPrefixOf_iff_exists_append _ _).mp hpre
    have hdrop : p.data.drop "/tournaments/".data.length = t := by
      rw [ht]; exact List.drop_left _ _
    rw [hdrop] at hne hall hres
    refine ⟨t, ?_, hall, ht, hres⟩
    intro hnil
    rw [hnil] at hne
    simp at hne
  · rintro ⟨id, hne, hall, hp, hres⟩
    have hdrop : p.data.drop "/tournaments/".data.length = id := by
      rw [hp]; exact List.drop_left _ _
    have hpre : "/tournaments/".data.isPrefixOf p.data = true :=
      (isPrefixOf_iff_exists_append _ _).mpr ⟨id, hp⟩
    have hie : id.isEmpty = false := by
      cases id with
      | nil => exact absurd rfl hne
      | cons a l => rfl
    rw [hdrop, hpre, hall, hie, hres]
    rfl

theorem tourPathMatch_some_iff (p slug : String) :
    tourPathMatch p = some slug ↔
      ∃ id tail : List Char, id ≠ [] ∧ id.all Char.isAlphanum = true ∧
        (tail = [] ∨ tail = ['\n']) ∧
        p.data = "/tournaments/".data ++ id ++ tail ∧ slug = String.mk id := by
  constructor
  · intro h
    unfold tourPathMatch at h
    by_cases hpre : "/tournaments/".data.isPrefixOf p.data = true
    case neg =>
      rw [if_neg hpre] at h
      cases h
    rw [if_pos hpre] at h
    obtain ⟨t, ht⟩ := (isPrefixOf_iff_exists_append _ _).mp hpre
    have hdrop : p.data.drop "/tournaments/".data.length = t := by
      rw [ht]; exact List.drop_left _ _
    rw [hdrop, List.span_eq_take_drop] at h
    have hsplit : t.takeWhile Char.isAlphanum ++ t.dropWhile Char.isAlphanum = t :=
      List.takeWhile_append_dropWhile _ _
    split at h
    next _snd _heq =>
      cases h
    next d ds heq =>
      cases h
      have h1 : t.takeWhile Char.isAlphanum = d :: ds := congrArg Prod.fst heq
      have h2 : t.dropWhile Char.isAlphanum = [] := congrArg Prod.snd heq
      rw [h1, h2] at hsplit
      refine ⟨d :: ds, [], by simp, ?_, Or.inl rfl, ?_, rfl⟩
      · rw [← h1]; exact all_takeWhile_self _ _
      · rw [ht, ← hsplit]; simp
    next d ds heq =>
      cases h
      have h1 : t.takeWhile Char.isAlphanum = d :: ds := congrArg Prod.fst heq
      have h2 : t.dropWhile Char.isAlphanum = ['\n'] := congrArg Prod.snd heq
      rw [h1, h2] at hsplit
      refine ⟨d :: ds, ['\n'], by simp, ?_, Or.inr rfl, ?_, rfl⟩
      · rw [← h1]; exact all_takeWhile_self _ _
      · rw [ht, ← hsplit, ← List.append_assoc]
    next _a _l _b _m _heq =>
      cases h
  · rintro ⟨id, tail, hne, hall, htail, hp, rfl⟩
    unfold tourPathMatch
    have hpre : "/tournaments/".data.isPrefixOf p.data = true :=
      (isPrefixOf_iff_exists_append _ _).mpr ⟨id ++ tail, by rw [hp, List.append_assoc]⟩
    rw [if_pos hpre]
    have hdrop : p.data.drop "/tournaments/".data.length = id ++ tail := by
      rw [hp, List.append_assoc]; exact List.drop_left _ _
    rw [hdrop, List.span_eq_take_drop, takeWhile_append_of_all _ _ _ hall,
      dropWhile_append_of_all _ _ _ hall]
    have htw : tail.takeWhile Char.isAlphanum = [] ∧ tail.dropWhile Char.isAlphanum = tail := by
      rcases htail with rfl | rfl
      · exact ⟨rfl, rfl⟩
      · exact ⟨rfl, rfl⟩
    rw [htw.1, htw.2, List.append_nil]
    cases id with
    | nil => exact absurd rfl hne
    | cons d ds =>
      rcases htail with rfl | rfl
      · rfl
      · rfl

/-- C8 (amended): `is_valid_tournament_path` accepts exactly the paths of
the form `/tournaments/<id>` — or `/tournaments/<id>` followed by one
final newline, an artifact of Python's `$` matching just before a
trailing newline — with `<id>` a nonempty alphanumeric run whose
lowercased form is not in the reserved set; everything else is rejected. -/
theorem c8_link_classifier (p : String) :
    is_valid_tournament_path p = true ↔
      (specValidPath p = true ∨
        (p.data.getLast? = some '\n' ∧
          specValidPath (String.mk p.data.dropLast) = true)) := by
  unfold is_valid_tournament_path
  constructor
  · intro h
    cases htm : tourPathMatch p with
    | none => rw [htm] at h; cases h
    | some slug =>
      rw [htm] at h
      have hres : RESERVED_SLUGS.contains (strToLower slug) = false := by
        simpa using h
      obtain ⟨id, tail, hne, hall, htail, hp, rfl⟩ := (tourPathMatch_some_iff p slug).mp htm
      rcases htail with rfl | rfl
      · left
        exact (specValidPath_iff p).mpr ⟨id, hne, hall, by rw [hp, List.append_nil], hres⟩
      · right
        constructor
        · rw [hp]
          exact List.getLast?_concat _
        · refine (specValidPath_iff _).mpr ⟨id, hne, hall, ?_, hres⟩
          show p.data.dropLast = _
          rw [hp, List.dropLast_concat]
  · intro h
    have hdecomp : ∃ id tail : List Char, id ≠ [] ∧ id.all Char.isAlphanum = true ∧
        (tail = [] ∨ tail = ['\n']) ∧
        p.data = "/tournaments/".data ++ id ++ tail ∧
        RESERVED_SLUGS.contains (strToLower (String.mk id)) = false := by
      rcases h with h | ⟨hlast, h⟩
      · obtain ⟨id, hne, hall, hp, hres⟩ := (specValidPath_iff p).mp h
        exact ⟨id, [], hne, hall, Or.inl rfl, by rw [hp, List.append_nil], hres⟩
      · obtain ⟨id, hne, hall, hp, hres⟩ := (specValidPath_iff _).mp h
        refine ⟨id, ['\n'], hne, hall, Or.inr rfl, ?_, hres⟩
        have h3 := eq_dropLast_concat_of_getLast? p.data '\n' hlast
        exact h3.trans (by rw [show p.data.dropLast = "/tournaments/".data ++ id from hp])
    obtain ⟨id, tail, hne, hall, htail, hp, hres⟩ := hdecomp
    rw [(tourPathMatch_some_iff p (String.mk id)).mpr ⟨id, tail, hne, hall, htail, hp, rfl⟩]
    show (!RESERVED_SLUGS.contains (strToLower (String.mk id))) = true
    rw [hres]
    rfl

/-- C8 counterexample to the claim as stated: a path with a trailing
newline is not of the exact `/tournaments/<id>` shape, yet the classifier
accepts it (Python's `$` matches before a trailing newline). -/
theorem c8_counterexample_trailing_newline :
    is_valid_tournament_path "/tournaments/abc\n" = true
    ∧ specValidPath "/tournaments/abc\n" = false :=
  ⟨rfl, rfl⟩

/-! ## C7: the date extractor -/

theorem firstHitFrom_eq_some_iff {α} (f : Nat → Option α) :
    ∀ (n i : Nat) (a : α), firstHitFrom f i n = some a ↔
      ∃ k, k < n ∧ f (i + k) = some a ∧ ∀ j, j < k → f (i + j) = none := by
  intro n
  induction n with
  | zero => intro i a; simp [firstHitFrom]
  | succ n ih =>
    intro i a
    rw [firstHitFrom]
    cases hf : f i with
    | some b =>
      constructor
      · intro h
        cases h
        exact ⟨0, Nat.succ_pos n, by simpa using hf, by intro j hj; omega⟩
      · rintro ⟨k, hk, hfk, hprev⟩
        cases k with
        | zero =>
          rw [Nat.add_zero, hf] at hfk
          exact hfk
        | succ k =>
          have h0 := hprev 0 (Nat.succ_pos k)
          rw [Nat.add_zero, hf] at h0
          cases h0
    | none =>
      rw [ih (i + 1) a]
      constructor
      · rintro ⟨k, hk, hfk, hprev⟩
        refine ⟨k + 1, by omega, by rwa [show i + 1 + k = i + (k + 1) by omega] at hfk, ?_⟩
        intro j hj
        cases j with
        | zero => simpa using hf
        | succ j =>
          have := hprev j (by omega)
          rwa [show i + 1 + j = i + (j + 1) by omega] at this
      · rintro ⟨k, hk, hfk, hprev⟩
        cases k with
        | zero =>
          rw [Nat.add_zero, hf] at hfk
          cases hfk
        | succ k =>
          refine ⟨k, by omega, by rwa [show i + (k + 1) = i + 1 + k by omega] at hfk, ?_⟩
          intro j hj
          have := hprev (j + 1) (by omega)
          rwa [show i + (j + 1) = i + 1 + j by omega] at this

theorem firstHitFrom_eq_none_iff {α} (f : Nat → Option α) :
    ∀ (n i : Nat), firstHitFrom f i n = none ↔ ∀ k, k < n → f (i + k) = none := by
  intro n
  induction n with
  | zero => intro i; simp [firstHitFrom]
  | succ n ih =>
    intro i
    rw [firstHitFrom]
    cases hf : f i with
    | some b =>
      constructor
      · intro h; cases h
      · intro h
        have := h 0 (Nat.succ_pos n)
        rw [Nat.add_zero, hf] at this
        cases this
    | none =>
      rw [ih (i + 1)]
      constructor
      · intro h k hk
        cases k with
        | zero => simpa using hf
        | succ k =>
          have := h k (by omega)
          rwa [show i + 1 + k = i + (k + 1) by omega] at this
      · intro h k hk
        have := h (k + 1) (by omega)
        rwa [show i + (k + 1) = i + 1 + k by omega] at this

theorem dateHitAt_lt_of_some (cs : List Char) (i : Nat) (g : String × String × String)
    (h : dateHitAt cs i = some g) : i < cs.length + 1 := by
  by_contra hge
  push_neg at hge
  have hdrop : cs.drop i = [] := List.drop_eq_nil_iff.mpr (by omega)
  unfold dateHitAt at h
  by_cases hb : boundaryOkB (prevCharAt cs i) = true
  · rw [if_pos hb, hdrop] at h
    cases h
  · rw [if_neg hb] at h
    cases h

theorem searchDate_eq_some_iff (cs : List Char) (g : String × String × String) :
    searchDate cs = some g ↔
      ∃ i, dateHitAt cs i = some g ∧ ∀ j, j < i → dateHitAt cs j = none := by
  unfold searchDate
  rw [firstHitFrom_eq_some_iff]
  constructor
  · rintro ⟨k, _, h1, h2⟩
    refine ⟨k, by simpa using h1, ?_⟩
    intro j hj
    simpa using h2 j hj
  · rintro ⟨i, h1, h2⟩
    refine ⟨i, dateHitAt_lt_of_some cs i g h1, by simpa using h1, ?_⟩
    intro j hj
    simpa using h2 j hj

theorem searchDate_eq_none_iff (cs : List Char) :
    searchDate cs = none ↔ ∀ i, dateHitAt cs i = none := by
  unfold searchDate
  rw [firstHitFrom_eq_none_iff]
  constructor
  · intro h i
    by_cases hi : i < cs.length + 1
    · simpa using h i hi
    · cases hd : dateHitAt cs i with
      | none => rfl
      | some g => exact absurd (dateHitAt_lt_of_some cs i g hd) hi
  · intro h k _
    simpa using h k

/-- C7 (amended): `parse_date` returns the calendar date built from the
leftmost `DATE_RE` match of the whitespace-collapsed text — year `20xx` at
a word boundary, recognized 3-letter month, 1-2 digit day at a word
boundary — and returns nothing exactly when no position matches, or the
leftmost match has an unrecognized month abbreviation or an invalid
calendar day. -/
theorem c7_date_extractor (text : String) :
    (∀ D : PyDate, parse_date text = some D ↔
      ∃ i y mon d, dateHitAt (collapse text).data i = some (y, mon, d) ∧
        (∀ j, j < i → dateHitAt (collapse text).data j = none) ∧
        monthOf mon = some D.month ∧ D.year = digitsToNat y.data ∧
        D.day = digitsToNat d.data ∧ 1 ≤ D.day ∧ D.day ≤ daysInMonth D.year D.month)
    ∧ (parse_date text = none ↔
      (∀ i, dateHitAt (collapse text).data i = none) ∨
      ∃ i y mon d, dateHitAt (collapse text).data i = some (y, mon, d) ∧
        (∀ j, j < i → dateHitAt (collapse text).data j = none) ∧
        ∀ m, monthOf mon = some m →
          ¬(1 ≤ digitsToNat d.data ∧
            digitsToNat d.data ≤ daysInMonth (digitsToNat y.data) m)) := by
  constructor
  · intro D
    constructor
    · intro h
      cases hsd : searchDate (collapse text).data with
      | none =>
        simp only [parse_date, hsd] at h
        exact Option.noConfusion h
      | some g =>
        obtain ⟨y, mon, d⟩ := g
        simp only [parse_date, hsd] at h
        obtain ⟨i, hhit, hprev⟩ := (searchDate_eq_some_iff _ _).mp hsd
        cases hm : monthOf mon with
        | none =>
          simp only [hm] at h
          exact Option.noConfusion h
        | some m =>
          simp only [hm] at h
          by_cases hv : 1 ≤ digitsToNat d.data ∧
              digitsToNat d.data ≤ daysInMonth (digitsToNat y.data) m
          · rw [if_pos hv] at h
            cases h
            exact ⟨i, y, mon, d, hhit, hprev, hm, rfl, rfl, hv.1, hv.2⟩
          · rw [if_neg hv] at h
            cases h
    · rintro ⟨i, y, mon, d, hhit, hprev, hm, hy, hd, hv1, hv2⟩
      have hsd : searchDate (collapse text).data = some (y, mon, d) :=
        (searchDate_eq_some_iff _ _).mpr ⟨i, hhit, hprev⟩
      simp only [parse_date, hsd, hm]
      rw [if_pos (by rw [← hy, ← hd]; exact ⟨hv1, hv2⟩)]
      cases D
      simp only at hy hd
      rw [← hy, ← hd]
  · constructor
    · intro h
      cases hsd : searchDate (collapse text).data with
      | none => exact Or.inl ((searchDate_eq_none_iff _).mp hsd)
      | some g =>
        obtain ⟨y, mon, d⟩ := g
        simp only [parse_date, hsd] at h
        obtain ⟨i, hhit, hprev⟩ := (searchDate_eq_some_iff _ _).mp hsd
        refine Or.inr ⟨i, y, mon, d, hhit, hprev, ?_⟩
        intro m hm
        simp only [hm] at h
        intro hv
        rw [if_pos hv] at h
        cases h
    · intro h
      rcases h with h | ⟨i, y, mon, d, hhit, hprev, hbad⟩
      · simp only [parse_date, (searchDate_eq_none_iff _).mpr h]
      · simp only [parse_date, (searchDate_eq_some_iff _ _).mpr ⟨i, hhit, hprev⟩]
        cases hm : monthOf mon with
        | none => simp only [hm]
        | some m =>
          simp only [hm]
          rw [if_neg (hbad m hm)]

/-- C7 counterexample to the claim as stated: `"1999 Feb 15"` contains a
4-digit-year date substring, yet `parse_date` finds nothing, because
`DATE_RE` only accepts years of the form `20xx`. -/
theorem c7_counterexample_year_range :
    claimContainsDate "1999 Feb 15" = true ∧ parse_date "1999 Feb 15" = none :=
  ⟨rfl, rfl⟩

/-! ## C3 and C10: the average extractors -/

theorem eatDigits1_props (cs ds rest : List Char) (h : eatDigits1 cs = some (ds, rest)) :
    ds ≠ [] ∧ ds.all Char.isDigit = true := by
  unfold eatDigits1 at h
  rw [List.span_eq_take_drop] at h
  split at h
  · exact Option.noConfusion h
  next d ds2 rest2 heq =>
    cases h
    have h1 : cs.takeWhile Char.isDigit = d :: ds2 := congrArg Prod.fst heq
    exact ⟨by simp, by rw [← h1]; exact all_takeWhile_self _ _⟩

theorem decShapeL_digits (ds : List Char) (h1 : ds ≠ []) (h2 : ds.all Char.isDigit = true) :
    decShapeL ds = true := by
  unfold decShapeL
  rw [List.span_eq_take_drop, takeWhile_eq_self_of_all _ _ h2, dropWhile_eq_nil_of_all _ _ h2]
  cases ds with
  | nil => exact absurd rfl h1
  | cons d ds2 => rfl

theorem decShapeL_frac (ds fs : List Char) (h1 : ds ≠ []) (h2 : ds.all Char.isDigit = true)
    (h3 : fs ≠ []) (h4 : fs.all Char.isDigit = true) :
    decShapeL (ds ++ '.' :: fs) = true := by
  unfold decShapeL
  rw [List.span_eq_take_drop, takeWhile_append_of_all _ _ _ h2, dropWhile_append_of_all _ _ _ h2]
  rw [show ('.' :: fs).takeWhile Char.isDigit = [] from rfl,
    show ('.' :: fs).dropWhile Char.isDigit = '.' :: fs from rfl, List.append_nil]
  have hie : fs.isEmpty = false := by
    cases fs with
    | nil => exact absurd rfl h3
    | cons f fs2 => rfl
  cases ds with
  | nil => exact absurd rfl h1
  | cons d ds2 =>
    show (!fs.isEmpty && fs.all Char.isDigit) = true
    rw [hie, h4]
    rfl

theorem eatDec_shape (cs : List Char) (vr : List Char × List Char)
    (h : eatDec cs = some vr) : decShapeL vr.1 = true := by
  unfold eatDec at h
  cases h1 : eatDigits1 cs with
  | none =>
    simp only [h1] at h
    exact Option.noConfusion h
  | some dr =>
    obtain ⟨ds, rest⟩ := dr
    simp only [h1] at h
    obtain ⟨hne, hall⟩ := eatDigits1_props cs ds rest h1
    split at h
    next rest2 =>
      cases h2 : eatDigits1 rest2 with
      | some fr =>
        obtain ⟨fs, rest3⟩ := fr
        simp only [h2] at h
        cases h
        obtain ⟨hfne, hfall⟩ := eatDigits1_props rest2 fs rest3 h2
        exact decShapeL_frac ds fs hne hall hfne hfall
      | none =>
        simp only [h2] at h
        cases h
        exact decShapeL_digits ds hne hall
    next =>
      cases h
      exact decShapeL_digits ds hne hall

theorem matchTail2_shape (cs : List Char) (v1 v2 : String) (rest : List Char)
    (h : matchTail2 cs = some (v1, v2, rest)) :
    decShape v1 = true ∧ decShape v2 = true := by
  unfold matchTail2 at h
  simp only [Option.bind_eq_some] at h
  obtain ⟨r1, _, dr, hdr, r3, _, vr1, hv1, r5, _, r6, _, vr2, hv2, r8, _, heq⟩ := h
  cases heq
  exact ⟨eatDec_shape _ _ hv1, eatDec_shape _ _ hv2⟩

theorem lazyP2_shape (cls : Char → Bool) :
    ∀ (cs acc : List Char) (p2 v1 v2 : String) (fin : List Char),
      lazyP2 cls acc cs = some (p2, v1, v2, fin) →
        decShape v1 = true ∧ decShape v2 = true := by
  intro cs
  induction cs with
  | nil => intro acc p2 v1 v2 fin h; exact Option.noConfusion h
  | cons c rest ih =>
    intro acc p2 v1 v2 fin h
    unfold lazyP2 at h
    by_cases hc : cls c = true
    · rw [if_pos hc] at h
      cases hmt : matchTail2 rest with
      | some t =>
        obtain ⟨tv1, tv2, tfin⟩ := t
        simp only [hmt] at h
        cases h
        exact matchTail2_shape _ _ _ _ hmt
      | none =>
        simp only [hmt] at h
        exact ih _ _ _ _ _ h
    · rw [if_neg hc] at h
      exact Option.noConfusion h

theorem afterP1_shape (cls : Char → Bool) (cs : List Char) (p2 v1 v2 : String)
    (fin : List Char) (h : afterP1 cls cs = some (p2, v1, v2, fin)) :
    decShape v1 = true ∧ decShape v2 = true := by
  unfold afterP1 at h
  simp only [Option.bind_eq_some] at h
  obtain ⟨r1, _, dr, _, r3, _, hl2⟩ := h
  exact lazyP2_shape cls _ _ _ _ _ _ hl2

theorem lazyP1_shape (cls : Char → Bool) :
    ∀ (cs acc : List Char) (m : PairMatch) (fin : List Char),
      lazyP1 cls acc cs = some (m, fin) →
        decShape m.v1 = true ∧ decShape m.v2 = true := by
  intro cs
  induction cs with
  | nil => intro acc m fin h; exact Option.noConfusion h
  | cons c rest ih =>
    intro acc m fin h
    unfold lazyP1 at h
    by_cases hc : cls c = true
    · rw [if_pos hc] at h
      cases hap : afterP1 cls rest with
      | some t =>
        obtain ⟨p2, v1, v2, tfin⟩ := t
        simp only [hap] at h
        cases h
        exact afterP1_shape cls _ _ _ _ _ hap
      | none =>
        simp only [hap] at h
        exact ih _ _ _ h
    · rw [if_neg hc] at h
      exact Option.noConfusion h

theorem matchBestofAt_shape (cs : List Char) (m : PairMatch) (rest : List Char)
    (h : matchBestofAt cs = some (m, rest)) :
    decShape m.v1 = true ∧ decShape m.v2 = true := by
  unfold matchBestofAt at h
  simp only [Option.bind_eq_some] at h
  obtain ⟨r1, _, r2, _, r3, _, r4, _, dr, _, r6, _, hl1⟩ := h
  exact lazyP1_shape dotCls _ _ _ _ hl1

theorem matchPairAt_shape (cs : List Char) (m : PairMatch) (rest : List Char)
    (h : matchPairAt cs = some (m, rest)) :
    decShape m.v1 = true ∧ decShape m.v2 = true :=
  lazyP1_shape pairCls _ _ _ _ h

theorem finditerAux_succ (matchAt : List Char → Option (PairMatch × List Char))
    (cs : List Char) (n : Nat) :
    finditerAux matchAt cs (n + 1) =
      match matchAt cs with
      | some (m, rest) => m :: finditerAux matchAt rest n
      | none =>
        match cs with
        | [] => []
        | _ :: cs2 => finditerAux matchAt cs2 n := rfl

theorem finditerAux_forall (matchAt : List Char → Option (PairMatch × List Char))
    (P : PairMatch → Prop)
    (hP : ∀ cs m rest, matchAt cs = some (m, rest) → P m) :
    ∀ (fuel : Nat) (cs : List Char), ∀ m ∈ finditerAux matchAt cs fuel, P m := by
  intro fuel
  induction fuel with
  | zero =>
    intro cs m hmem
    exact absurd hmem (by simp [finditerAux])
  | succ n ih =>
    intro cs m hmem
    rw [finditerAux_succ] at hmem
    cases hma : matchAt cs with
    | some p =>
      obtain ⟨mm, rest⟩ := p
      simp only [hma] at hmem
      rcases List.mem_cons.mp hmem with rfl | hmem2
      · exact hP cs m rest hma
      · exact ih rest m hmem2
    | none =>
      simp only [hma] at hmem
      cases cs with
      | nil => exact absurd hmem (by simp)
      | cons c cs2 => exact ih cs2 m hmem

theorem finditerBestof_shape (cs : List Char) :
    ∀ m ∈ finditerBestof cs, decShape m.v1 = true ∧ decShape m.v2 = true :=
  finditerAux_forall matchBestofAt _
    (fun cs2 m rest h => matchBestofAt_shape cs2 m rest h) _ cs

theorem finditerPair_shape (cs : List Char) :
    ∀ m ∈ finditerPair cs, decShape m.v1 = true ∧ decShape m.v2 = true :=
  finditerAux_forall matchPairAt _
    (fun cs2 m rest h => matchPairAt_shape cs2 m rest h) _ cs

theorem pyFloat_of_shape (s : String) (h : decShape s = true) :
    pyFloat s = some (decValQ s) := by
  unfold pyFloat
  rw [if_pos h]

/-- The extractor fold, on matches whose captures are well-shaped, appends
exactly the two pairs of every match in order. -/
theorem avgFold_eq_flatMap (ms : List PairMatch)
    (hms : ∀ m ∈ ms, decShape m.v1 = true ∧ decShape m.v2 = true) :
    ∀ acc : List (String × ℚ),
      (ms.foldl (fun out m =>
        match pyFloat m.v1, pyFloat m.v2 with
        | some v1, some v2 => out ++ [(pyStrip m.p1, v1), (pyStrip m.p2, v2)]
        | _, _ => out) acc) =
      acc ++ ms.flatMap (fun m =>
        [(pyStrip m.p1, decValQ m.v1), (pyStrip m.p2, decValQ m.v2)]) := by
  induction ms with
  | nil => intro acc; simp
  | cons m ms ih =>
    intro acc
    have h1 : pyFloat m.v1 = some (decValQ m.v1) :=
      pyFloat_of_shape _ (hms m (List.mem_cons_self m ms)).1
    have h2 : pyFloat m.v2 = some (decValQ m.v2) :=
      pyFloat_of_shape _ (hms m (List.mem_cons_self m ms)).2
    rw [List.foldl_cons]
    rw [show (match pyFloat m.v1, pyFloat m.v2 with
          | some v1, some v2 => acc ++ [(pyStrip m.p1, v1), (pyStrip m.p2, v2)]
          | _, _ => acc) =
        acc ++ [(pyStrip m.p1, decValQ m.v1), (pyStrip m.p2, decValQ m.v2)] by
      rw [h1, h2]]
    rw [ih (fun m2 hm2 => hms m2 (List.mem_cons_of_mem m hm2))]
    rw [List.flatMap_cons, List.append_assoc]

theorem parse_player_avgs_from_html_eq (docText : String) :
    parse_player_avgs_from_html docText =
      (finditerBestof (collapse docText).data).flatMap (fun m =>
        [(pyStrip m.p1, decValQ m.v1), (pyStrip m.p2, decValQ m.v2)]) := by
  unfold parse_player_avgs_from_html
  rw [avgFold_eq_flatMap _ (finditerBestof_shape _) []]
  rfl

theorem parse_player_avgs_eq (text : String) :
    parse_player_avgs text =
      (finditerPair text.data).flatMap (fun m =>
        [(pyStrip m.p1, decValQ m.v1), (pyStrip m.p2, decValQ m.v2)]) := by
  unfold parse_player_avgs
  rw [avgFold_eq_flatMap _ (finditerPair_shape _) []]
  rfl

theorem decValQ_9250 : decValQ "92.50" = 92.5 := by
  show ((92 : ℕ) : ℚ) + ((50 : ℕ) : ℚ) / (10 : ℚ) ^ 2 = 92.5
  norm_num

theorem decValQ_7710 : decValQ "77.10" = 77.1 := by
  show ((77 : ℕ) : ℚ) + ((10 : ℕ) : ℚ) / (10 : ℚ) ^ 2 = 77.1
  norm_num

/-- C3 (amended): each variant returns, per regex match, exactly the pair
(player1, decimal1) followed by (player2, decimal2), in text order and
nothing else; `parse_player_avgs_from_html` matches the Best-of pattern
while yorkshire's `parse_player_avgs` does not require the `Best of`
prefix; on the spec's example text both return exactly
`[("Alice", 92.50), ("Bob", 77.10)]`. -/
theorem c3_average_extractor :
    (∀ docText : String, parse_player_avgs_from_html docText =
      (finditerBestof (collapse docText).data).flatMap (fun m =>
        [(pyStrip m.p1, decValQ m.v1), (pyStrip m.p2, decValQ m.v2)]))
    ∧ (∀ text : String, parse_player_avgs text =
      (finditerPair text.data).flatMap (fun m =>
        [(pyStrip m.p1, decValQ m.v1), (pyStrip m.p2, decValQ m.v2)]))
    ∧ parse_player_avgs_from_html "Best of 5 Alice 3 Bob 1 92.50 Avg 77.10 Avg" =
        [("Alice", (92.5 : ℚ)), ("Bob", (77.1 : ℚ))]
    ∧ parse_player_avgs "Best of 5 Alice 3 Bob 1 92.50 Avg 77.10 Avg" =
        [("Alice", (92.5 : ℚ)), ("Bob", (77.1 : ℚ))] := by
  refine ⟨parse_player_avgs_from_html_eq, parse_player_avgs_eq, ?_, ?_⟩
  · rw [parse_player_avgs_from_html_eq]
    rw [show finditerBestof
        (collapse "Best of 5 Alice 3 Bob 1 92.50 Avg 77.10 Avg").data =
        [⟨"Alice", "Bob", "92.50", "77.10"⟩] from rfl]
    rw [show ([⟨"Alice", "Bob", "92.50", "77.10"⟩] : List PairMatch).flatMap (fun m =>
        [(pyStrip m.p1, decValQ m.v1), (pyStrip m.p2, decValQ m.v2)]) =
        [(pyStrip "Alice", decValQ "92.50"), (pyStrip "Bob", decValQ "77.10")] from rfl]
    rw [decValQ_9250, decValQ_7710]
    rfl
  · rw [parse_player_avgs_eq]
    rw [show finditerPair "Best of 5 Alice 3 Bob 1 92.50 Avg 77.10 Avg".data =
        [⟨" Alice", "Bob", "92.50", "77.10"⟩] from rfl]
    rw [show ([⟨" Alice", "Bob", "92.50", "77.10"⟩] : List PairMatch).flatMap (fun m =>
        [(pyStrip m.p1, decValQ m.v1), (pyStrip m.p2, decValQ m.v2)]) =
        [(pyStrip " Alice", decValQ "92.50"), (pyStrip "Bob", decValQ "77.10")] from rfl]
    rw [decValQ_9250, decValQ_7710]
    rfl

/-- C3 counterexample to the claim as stated: on text with zero
occurrences of the `Best of` pattern, the yorkshire variant still returns
pairs, because `PAIR_RE` does not require the `Best of` prefix. -/
theorem c3_counterexample_pair_without_bestof :
    finditerBestof (collapse "Alice 3 Bob 1 92.50 Avg 77.10 Avg").data = []
    ∧ parse_player_avgs "Alice 3 Bob 1 92.50 Avg 77.10 Avg" =
        [("Alice", (92.5 : ℚ)), ("Bob", (77.1 : ℚ))] := by
  refine ⟨rfl, ?_⟩
  rw [parse_player_avgs_eq]
  rw [show finditerPair "Alice 3 Bob 1 92.50 Avg 77.10 Avg".data =
      [⟨"Alice", "Bob", "92.50", "77.10"⟩] from rfl]
  rw [show ([⟨"Alice", "Bob", "92.50", "77.10"⟩] : List PairMatch).flatMap (fun m =>
      [(pyStrip m.p1, decValQ m.v1), (pyStrip m.p2, decValQ m.v2)]) =
      [(pyStrip "Alice", decValQ "92.50"), (pyStrip "Bob", decValQ "77.10")] from rfl]
  rw [decValQ_9250, decValQ_7710]
  rfl

theorem flatMap_two_length (ms : List PairMatch)
    (f : PairMatch → List (String × ℚ)) (hf : ∀ m, (f m).length = 2) :
    (ms.flatMap f).length = 2 * ms.length := by
  induction ms with
  | nil => rfl
  | cons m ms ih =>
    rw [List.flatMap_cons, List.length_append, hf m, ih, List.length_cons]
    omega

/-- C10: in both variants every capture fed to `float` has the decimal
shape `\d+(\.\d+)?`, so the conversion always succeeds and the
`ValueError` discard branch is unreachable; every match contributes
exactly two pairs, so the output length is twice the match count and in
particular always even. -/
theorem c10_float_conversion_total :
    (∀ cs : List Char, (finditerBestof cs).all (fun m =>
      decShape m.v1 && decShape m.v2 && (pyFloat m.v1).isSome && (pyFloat m.v2).isSome) = true)
    ∧ (∀ cs : List Char, (finditerPair cs).all (fun m =>
      decShape m.v1 && decShape m.v2 && (pyFloat m.v1).isSome && (pyFloat m.v2).isSome) = true)
    ∧ (∀ docText : String, (parse_player_avgs_from_html docText).length =
        2 * (finditerBestof (collapse docText).data).length)
    ∧ (∀ text : String, (parse_player_avgs text).length =
        2 * (finditerPair text.data).length)
    ∧ (∀ docText : String, (parse_player_avgs_from_html docText).length % 2 = 0)
    ∧ (∀ text : String, (parse_player_avgs text).length % 2 = 0) := by
  have hb : ∀ cs : List Char, (finditerBestof cs).all (fun m =>
      decShape m.v1 && decShape m.v2 && (pyFloat m.v1).isSome && (pyFloat m.v2).isSome) = true := by
    intro cs
    rw [List.all_eq_true]
    intro m hm
    obtain ⟨h1, h2⟩ := finditerBestof_shape cs m hm
    simp [h1, h2, pyFloat_of_shape _ h1, pyFloat_of_shape _ h2]
  have hp : ∀ cs : List Char, (finditerPair cs).all (fun m =>
      decShape m.v1 && decShape m.v2 && (pyFloat m.v1).isSome && (pyFloat m.v2).isSome) = true := by
    intro cs
    rw [List.all_eq_true]
    intro m hm
    obtain ⟨h1, h2⟩ := finditerPair_shape cs m hm
    simp [h1, h2, pyFloat_of_shape _ h1, pyFloat_of_shape _ h2]
  have hlb : ∀ docText : String, (parse_player_avgs_from_html docText).length =
      2 * (finditerBestof (collapse docText).data).length := by
    intro docText
    rw [parse_player_avgs_from_html_eq]
    exact flatMap_two_length _ _ (fun m => rfl)
  have hlp : ∀ text : String, (parse_player_avgs text).length =
      2 * (finditerPair text.data).length := by
    intro text
    rw [parse_player_avgs_eq]
    exact flatMap_two_length _ _ (fun m => rfl)
  refine ⟨hb, hp, hlb, hlp, ?_, ?_⟩
  · intro docText
    rw [hlb docText]
    omega
  · intro text
    rw [hlp text]
    omega

/-! ## C4: the threshold filter of the tournament scraper -/

theorem mem_filterMap_thresh (pairs : List (String × ℚ)) (t2 s2 : String) (v : ℚ)
    (p t s : String) :
    ((v, p, t, s) ∈ pairs.filterMap (fun pa =>
        if THRESHOLD ≤ pa.2 then some (pa.2, pa.1, t2, s2) else none)) ↔
      ((p, v) ∈ pairs ∧ THRESHOLD ≤ v ∧ t = t2 ∧ s = s2) := by
  rw [List.mem_filterMap]
  constructor
  · rintro ⟨⟨pp, vv⟩, hpa, hf⟩
    by_cases hth : THRESHOLD ≤ vv
    · rw [if_pos hth] at hf
      cases hf
      exact ⟨hpa, hth, rfl, rfl⟩
    · rw [if_neg hth] at hf
      exact Option.noConfusion hf
  · rintro ⟨hmem, hth, rfl, rfl⟩
    exact ⟨(p, v), hmem, by rw [if_pos hth]⟩

theorem mem_filterMap_thresh_avgrow (pairs : List (String × ℚ)) (t2 s2 : String) (v : ℚ)
    (p t s : String) :
    ((⟨v, p, t, s⟩ : AvgRow) ∈ pairs.filterMap (fun pa =>
        if THRESHOLD ≤ pa.2 then some (⟨pa.2, pa.1, t2, s2⟩ : AvgRow) else none)) ↔
      ((p, v) ∈ pairs ∧ THRESHOLD ≤ v ∧ t = t2 ∧ s = s2) := by
  rw [List.mem_filterMap]
  constructor
  · rintro ⟨⟨pp, vv⟩, hpa, hf⟩
    by_cases hth : THRESHOLD ≤ vv
    · rw [if_pos hth] at hf
      cases hf
      exact ⟨hpa, hth, rfl, rfl⟩
    · rw [if_neg hth] at hf
      exact Option.noConfusion hf
  · rintro ⟨hmem, hth, rfl, rfl⟩
    exact ⟨(p, v), hmem, by rw [if_pos hth]⟩

theorem rs_scrape_mem_matches (fetchText : String → String) (sel : String → List String)
    (title base_url : String) (v : ℚ) (p : String) :
    ((v, p, title, "matches") ∈ RS.scrape_tournament fetchText sel title base_url ↔
      (p, v) ∈ parse_player_avgs_from_html
        (fetchText (rstripSlash base_url ++ "/results")) ∧ THRESHOLD ≤ v) := by
  simp only [RS.scrape_tournament]
  rw [List.mem_append]
  constructor
  · rintro (h | h)
    · obtain ⟨h1, h2, _, _⟩ := (mem_filterMap_thresh _ _ _ _ _ _ _).mp h
      exact ⟨h1, h2⟩
    · rw [List.mem_flatMap] at h
      obtain ⟨gl, _, hmem⟩ := h
      obtain ⟨_, _, _, hs⟩ := (mem_filterMap_thresh _ _ _ _ _ _ _).mp hmem
      exact absurd hs (by decide)
  · rintro ⟨h1, h2⟩
    exact Or.inl ((mem_filterMap_thresh _ _ _ _ _ _ _).mpr ⟨h1, h2, rfl, rfl⟩)

theorem rs_scrape_mem_groups (fetchText : String → String) (sel : String → List String)
    (title base_url : String) (v : ℚ) (p : String) :
    ((v, p, title, "groups") ∈ RS.scrape_tournament fetchText sel title base_url ↔
      ∃ gl ∈ RS.group_links (sel (rstripSlash base_url ++ "/groups")),
        (p, v) ∈ parse_player_avgs_from_html (fetchText gl) ∧ THRESHOLD ≤ v) := by
  simp only [RS.scrape_tournament]
  rw [List.mem_append, List.mem_flatMap]
  constructor
  · rintro (h | h)
    · obtain ⟨_, _, _, hs⟩ := (mem_filterMap_thresh _ _ _ _ _ _ _).mp h
      exact absurd hs (by decide)
    · obtain ⟨gl, hgl, hmem⟩ := h
      obtain ⟨h1, h2, _, _⟩ := (mem_filterMap_thresh _ _ _ _ _ _ _).mp hmem
      exact ⟨gl, hgl, h1, h2⟩
  · rintro ⟨gl, hgl, h1, h2⟩
    exact Or.inr ⟨gl, hgl, (mem_filterMap_thresh _ _ _ _ _ _ _).mpr ⟨h1, h2, rfl, rfl⟩⟩

theorem yk_scrape_mem_matches (scrapeText : String → String) (gh : String → List String)
    (title base_url : String) (v : ℚ) (p : String) :
    ((⟨v, p, title, "matches"⟩ : AvgRow) ∈ YK.scrape_tournament scrapeText gh title base_url ↔
      (p, v) ∈ parse_player_avgs (scrapeText (rstripSlash base_url ++ "/results")) ∧
        THRESHOLD ≤ v) := by
  simp only [YK.scrape_tournament]
  rw [List.mem_append]
  constructor
  · rintro (h | h)
    · obtain ⟨h1, h2, _, _⟩ := (mem_filterMap_thresh_avgrow _ _ _ _ _ _ _).mp h
      exact ⟨h1, h2⟩
    · rw [List.mem_flatMap] at h
      obtain ⟨gl, _, hmem⟩ := h
      obtain ⟨_, _, _, hs⟩ := (mem_filterMap_thresh_avgrow _ _ _ _ _ _ _).mp hmem
      exact absurd hs (by decide)
  · rintro ⟨h1, h2⟩
    exact Or.inl ((mem_filterMap_thresh_avgrow _ _ _ _ _ _ _).mpr ⟨h1, h2, rfl, rfl⟩)

theorem yk_scrape_mem_groups (scrapeText : String → String) (gh : String → List String)
    (title base_url : String) (v : ℚ) (p : String) :
    ((⟨v, p, title, "groups"⟩ : AvgRow) ∈ YK.scrape_tournament scrapeText gh title base_url ↔
      ∃ gl ∈ YK.group_links (gh (rstripSlash base_url ++ "/groups")),
        (p, v) ∈ parse_player_avgs (scrapeText gl) ∧ THRESHOLD ≤ v) := by
  simp only [YK.scrape_tournament]
  rw [List.mem_append, List.mem_flatMap]
  constructor
  · rintro (h | h)
    · obtain ⟨_, _, _, hs⟩ := (mem_filterMap_thresh_avgrow _ _ _ _ _ _ _).mp h
      exact absurd hs (by decide)
    · obtain ⟨gl, hgl, hmem⟩ := h
      obtain ⟨h1, h2, _, _⟩ := (mem_filterMap_thresh_avgrow _ _ _ _ _ _ _).mp hmem
      exact ⟨gl, hgl, h1, h2⟩
  · rintro ⟨gl, hgl, h1, h2⟩
    exact Or.inr ⟨gl, hgl, (mem_filterMap_thresh_avgrow _ _ _ _ _ _ _).mpr ⟨h1, h2, rfl, rfl⟩⟩

/-- C4: in both scrapers a `(player, average)` pair becomes a report row
exactly when the average is `≥ THRESHOLD = 85.0`, identically for the
"matches" and "groups" sections, and the boundary is inclusive: an
average of exactly 85.00 passes the filter while 84.99 does not. -/
theorem c4_threshold_inclusive_boundary :
    (∀ (fetchText : String → String) (sel : String → List String)
        (title base_url : String) (v : ℚ) (p : String),
      ((v, p, title, "matches") ∈ RS.scrape_tournament fetchText sel title base_url ↔
        (p, v) ∈ parse_player_avgs_from_html
          (fetchText (rstripSlash base_url ++ "/results")) ∧ THRESHOLD ≤ v)
      ∧ ((v, p, title, "groups") ∈ RS.scrape_tournament fetchText sel title base_url ↔
        ∃ gl ∈ RS.group_links (sel (rstripSlash base_url ++ "/groups")),
          (p, v) ∈ parse_player_avgs_from_html (fetchText gl) ∧ THRESHOLD ≤ v))
    ∧ (∀ (scrapeText : String → String) (gh : String → List String)
        (title base_url : String) (v : ℚ) (p : String),
      ((⟨v, p, title, "matches"⟩ : AvgRow) ∈
          YK.scrape_tournament scrapeText gh title base_url ↔
        (p, v) ∈ parse_player_avgs (scrapeText (rstripSlash base_url ++ "/results")) ∧
          THRESHOLD ≤ v)
      ∧ ((⟨v, p, title, "groups"⟩ : AvgRow) ∈
          YK.scrape_tournament scrapeText gh title base_url ↔
        ∃ gl ∈ YK.group_links (gh (rstripSlash base_url ++ "/groups")),
          (p, v) ∈ parse_player_avgs (scrapeText gl) ∧ THRESHOLD ≤ v))
    ∧ THRESHOLD ≤ (85 : ℚ)
    ∧ ¬ THRESHOLD ≤ (84.99 : ℚ) := by
  refine ⟨?_, ?_, ?_, ?_⟩
  · intro fetchText sel title base_url v p
    exact ⟨rs_scrape_mem_matches fetchText sel title base_url v p,
      rs_scrape_mem_groups fetchText sel title base_url v p⟩
  · intro scrapeText gh title base_url v p
    exact ⟨yk_scrape_mem_matches scrapeText gh title base_url v p,
      yk_scrape_mem_groups scrapeText gh title base_url v p⟩
  · unfold THRESHOLD
    norm_num
  · unfold THRESHOLD
    norm_num

/-! ## C5 and C6: the report writer -/

theorem pyDedup_mem [DecidableEq α] :
    ∀ (l seen : List α) (x : α), x ∈ pyDedup seen l ↔ x ∈ l ∧ x ∉ seen := by
  intro l
  induction l with
  | nil => intro seen x; simp [pyDedup]
  | cons y ys ih =>
    intro seen x
    unfold pyDedup
    by_cases hy : y ∈ seen
    · rw [if_pos hy, ih]
      constructor
      · rintro ⟨hx, hns⟩
        exact ⟨List.mem_cons_of_mem y hx, hns⟩
      · rintro ⟨hx, hns⟩
        rcases List.mem_cons.mp hx with rfl | hx2
        · exact absurd hy hns
        · exact ⟨hx2, hns⟩
    · rw [if_neg hy]
      constructor
      · intro hx
        rcases List.mem_cons.mp hx with rfl | hx2
        · exact ⟨List.mem_cons_self x ys, hy⟩
        · obtain ⟨ha, hb⟩ := (ih (y :: seen) x).mp hx2
          exact ⟨List.mem_cons_of_mem y ha, fun hs => hb (List.mem_cons_of_mem y hs)⟩
      · rintro ⟨hx, hns⟩
        rcases List.mem_cons.mp hx with rfl | hx2
        · exact List.mem_cons_self x _
        · by_cases hxy : x = y
          · subst hxy
            exact List.mem_cons_self x _
          · refine List.mem_cons_of_mem y ((ih (y :: seen) x).mpr ⟨hx2, ?_⟩)
            intro hs
            rcases List.mem_cons.mp hs with h | h
            · exact hxy h
            · exact hns h

theorem pyDedup_nodup [DecidableEq α] : ∀ (l seen : List α), (pyDedup seen l).Nodup := by
  intro l
  induction l with
  | nil => intro seen; exact List.nodup_nil
  | cons y ys ih =>
    intro seen
    unfold pyDedup
    by_cases hy : y ∈ seen
    · rw [if_pos hy]
      exact ih seen
    · rw [if_neg hy]
      refine List.nodup_cons.mpr ⟨?_, ih _⟩
      intro hmem
      exact ((pyDedup_mem ys (y :: seen) y).mp hmem).2 (List.mem_cons_self _ _)

theorem insDesc_perm (key : α → ℚ) (x : α) :
    ∀ l : List α, (insDesc key x l).Perm (x :: l) := by
  intro l
  induction l with
  | nil => exact List.Perm.refl _
  | cons y ys ih =>
    unfold insDesc
    by_cases h : key x < key y
    · rw [if_pos h]
      exact (ih.cons y).trans (List.Perm.swap x y ys)
    · rw [if_neg h]

theorem sortDesc_perm (key : α → ℚ) : ∀ l : List α, (sortDesc key l).Perm l := by
  intro l
  induction l with
  | nil => exact List.Perm.refl _
  | cons y ys ih =>
    unfold sortDesc
    exact (insDesc_perm key y (sortDesc key ys)).trans (ih.cons y)

theorem insDesc_pairwise (key : α → ℚ) (x : α) :
    ∀ l : List α, l.Pairwise (fun a b => key b ≤ key a) →
      (insDesc key x l).Pairwise (fun a b => key b ≤ key a) := by
  intro l
  induction l with
  | nil => intro _; simp [insDesc]
  | cons y ys ih =>
    intro h
    rw [List.pairwise_cons] at h
    obtain ⟨hy, hys⟩ := h
    unfold insDesc
    by_cases hk : key x < key y
    · rw [if_pos hk]
      refine List.pairwise_cons.mpr ⟨?_, ih hys⟩
      intro b hb
      rcases List.mem_cons.mp ((insDesc_perm key x ys).mem_iff.mp hb) with rfl | hbys
      · exact le_of_lt hk
      · exact hy b hbys
    · rw [if_neg hk]
      refine List.pairwise_cons.mpr ⟨?_, List.pairwise_cons.mpr ⟨hy, hys⟩⟩
      intro b hb
      rcases List.mem_cons.mp hb with rfl | hbys
      · exact le_of_not_lt hk
      · exact le_trans (hy b hbys) (le_of_not_lt hk)

theorem sortDesc_pairwise (key : α → ℚ) :
    ∀ l : List α, (sortDesc key l).Pairwise (fun a b => key b ≤ key a) := by
  intro l
  induction l with
  | nil => exact List.Pairwise.nil
  | cons y ys ih =>
    unfold sortDesc
    exact insDesc_pairwise key y _ ih

theorem digitChar_isDigit (n : Nat) (h : n < 10) : (Nat.digitChar n).isDigit = true := by
  interval_cases n <;> rfl

theorem fmt2_shape (q : ℚ) : ∃ (pre : String) (d1 d2 : Char),
    fmt2 q = pre ++ "." ++ String.mk [d1, d2] ∧ d1.isDigit = true ∧ d2.isDigit = true := by
  refine ⟨(if roundHalfEven (q * 100) < 0 then "-" else "") ++
      toString ((roundHalfEven (q * 100)).natAbs / 100),
    Nat.digitChar ((roundHalfEven (q * 100)).natAbs % 100 / 10 % 10),
    Nat.digitChar ((roundHalfEven (q * 100)).natAbs % 100 % 10), ?_, ?_, ?_⟩
  · rfl
  · exact digitChar_isDigit _ (Nat.mod_lt _ (by norm_num))
  · exact digitChar_isDigit _ (Nat.mod_lt _ (by norm_num))

/-- C5: for every row list, both report writers emit the exact header
line, then one line per distinct row tuple (full-tuple deduplication, so
the emitted list is duplicate-free and has exactly the members of the
input), sorted descending by average value, each line comma-joining the
two-decimal value, player, tournament and section without quoting. -/
theorem c5_report_writer_format :
    (∀ rows : List Row,
      RS.write_report rows = "Value,Player,Tournament,Section\n" ++
        String.join ((sortDesc (fun r => r.1) (pyDedup [] rows)).map
          (fun r => renderRow r ++ "\n"))
      ∧ (sortDesc (fun r => r.1) (pyDedup [] rows)).Nodup
      ∧ (∀ t : Row, t ∈ sortDesc (fun r => r.1) (pyDedup [] rows) ↔ t ∈ rows)
      ∧ (sortDesc (fun r => r.1) (pyDedup [] rows)).Pairwise (fun a b => b.1 ≤ a.1))
    ∧ (∀ rows : List AvgRow,
      YK.write_report rows = "Value,Player,Tournament,Section\n" ++
        String.join ((sortDesc (fun r => r.value) (pyDedup [] rows)).map
          (fun r => renderAvgRow r ++ "\n"))
      ∧ (sortDesc (fun r => r.value) (pyDedup [] rows)).Nodup
      ∧ (∀ t : AvgRow, t ∈ sortDesc (fun r => r.value) (pyDedup [] rows) ↔ t ∈ rows)
      ∧ (sortDesc (fun r => r.value) (pyDedup [] rows)).Pairwise
          (fun a b => b.value ≤ a.value))
    ∧ (∀ (v : ℚ) (p t s : String),
        renderRow (v, p, t, s) = fmt2 v ++ "," ++ p ++ "," ++ t ++ "," ++ s)
    ∧ (∀ (r : AvgRow),
        renderAvgRow r = fmt2 r.value ++ "," ++ r.player ++ "," ++ r.tournament ++ "," ++ r.sect)
    ∧ (∀ v : ℚ, ∃ (pre : String) (d1 d2 : Char),
        fmt2 v = pre ++ "." ++ String.mk [d1, d2] ∧ d1.isDigit = true ∧ d2.isDigit = true) := by
  refine ⟨?_, ?_, fun v p t s => rfl, fun r => rfl, fmt2_shape⟩
  · intro rows
    refine ⟨rfl, (sortDesc_perm _ _).nodup_iff.mpr (pyDedup_nodup _ _), ?_,
      sortDesc_pairwise _ _⟩
    intro t
    rw [(sortDesc_perm _ _).mem_iff, pyDedup_mem]
    simp
  · intro rows
    refine ⟨rfl, (sortDesc_perm _ _).nodup_iff.mpr (pyDedup_nodup _ _), ?_,
      sortDesc_pairwise _ _⟩
    intro t
    rw [(sortDesc_perm _ _).mem_iff, pyDedup_mem]
    simp

/-- C6 (amended): a report write is deterministic in the row set and
overwrites whatever was there (byte-identical on repetition, independent
of the previous file state); an empty row set yields exactly the header
line; the run_scrapers runner always leaves a report file for every
region, but the yorkshire variant returns before writing when zero
target-day tournaments were collected, so on a fresh run it creates no
file in that case. -/
theorem c6_report_creation :
    (∀ (prev1 prev2 : Option String) (rows : List Row),
      RS.regionReportFile prev1 rows = RS.regionReportFile prev2 rows)
    ∧ (∀ (prev : Option String) (rows : List Row),
        (RS.regionReportFile prev rows).isSome = true)
    ∧ (∀ prev : Option String,
        RS.regionReportFile prev [] = some "Value,Player,Tournament,Section\n")
    ∧ RS.write_report [] = "Value,Player,Tournament,Section\n"
    ∧ YK.write_report [] = "Value,Player,Tournament,Section\n"
    ∧ (∀ (tournaments : List (String × String))
        (scrape : String → String → List AvgRow),
        (YK.mainReportFile tournaments scrape none).isSome = true ↔ tournaments ≠ []) := by
  refine ⟨fun _ _ _ => rfl, fun _ _ => rfl, fun _ => rfl, rfl, rfl, ?_⟩
  intro tournaments scrape
  unfold YK.mainReportFile
  cases tournaments with
  | nil => simp
  | cons t ts => simp

/-- C6 counterexample to the claim as stated: when zero target-day
tournaments were found, the yorkshire `main` returns before
`write_report`, so no report file is created on a fresh run — unlike the
run_scrapers runner, which writes the header-only file. -/
theorem c6_counterexample_yk_no_file :
    YK.mainReportFile [] (fun _ _ => []) none = none
    ∧ RS.regionReportFile none [] = some "Value,Player,Tournament,Section\n" :=
  ⟨rfl, rfl⟩

/-! ## C9: the region config loader -/

theorem regionConfigOf_none_of_missing (folder : String) (ft : String × String)
    (h : findConst "SEASON_RESULTS_URL" ft.2 = none ∨ findConst "REPORT_PATH" ft.2 = none) :
    regionConfigOf folder ft = none := by
  unfold regionConfigOf
  by_cases h1 : strEndsWith ft.1 ".py" = true
  case neg => simp [h1]
  by_cases h2 : ft.1 = "run_scrapers.py"
  case pos => simp [h1, h2]
  rcases h with h | h
  · simp [h1, h2, h]
  · simp [h1, h2, h]

/-- C9: the loader skips any configuration source missing the season URL
constant or the report path constant (removing such a file from the
listing leaves the result unchanged); every returned pair comes from a
`.py` file other than the runner that carries both constants, with the
report path taken as-is when absolute and joined to the base directory
when relative; and the run's startup gate raises exactly when zero valid
configurations were found. -/
theorem c9_region_config_loader :
    (∀ (folder : String) (pre post : List (String × String)) (fname txt : String),
      (findConst "SEASON_RESULTS_URL" txt = none ∨ findConst "REPORT_PATH" txt = none) →
      load_region_configs folder (pre ++ (fname, txt) :: post) =
        load_region_configs folder (pre ++ post))
    ∧ (∀ (folder : String) (files : List (String × String)) (c : String × String),
      c ∈ load_region_configs folder files →
      ∃ ft ∈ files, strEndsWith ft.1 ".py" = true ∧ ft.1 ≠ "run_scrapers.py" ∧
        ∃ u p2, findConst "SEASON_RESULTS_URL" ft.2 = some u ∧
          findConst "REPORT_PATH" ft.2 = some p2 ∧
          c = (pyStrip u,
            if isAbsPath (pyStrip p2) then pyStrip p2 else pathJoin folder (pyStrip p2)))
    ∧ (∀ (folder : String) (files : List (String × String)),
        (load_region_configs folder files = [] →
          mainConfigGate (load_region_configs folder files) = Except.error
            "Could not find any region scripts with SEASON_RESULTS_URL and REPORT_PATH.")
        ∧ (load_region_configs folder files ≠ [] →
          mainConfigGate (load_region_configs folder files) =
            Except.ok (load_region_configs folder files))) := by
  refine ⟨?_, ?_, ?_⟩
  · intro folder pre post fname txt h
    unfold load_region_configs
    rw [List.filterMap_append, List.filterMap_append, List.filterMap_cons,
      regionConfigOf_none_of_missing folder (fname, txt) h]
  · intro folder files c hc
    rw [load_region_configs, List.mem_filterMap] at hc
    obtain ⟨ft, hft, hcfg⟩ := hc
    unfold regionConfigOf at hcfg
    by_cases h1 : strEndsWith ft.1 ".py" = true
    case neg =>
      rw [if_pos (by simp [h1])] at hcfg
      exact Option.noConfusion hcfg
    rw [if_neg (by simp [h1])] at hcfg
    by_cases h2 : ft.1 = "run_scrapers.py"
    case pos =>
      rw [if_pos h2] at hcfg
      exact Option.noConfusion hcfg
    rw [if_neg h2] at hcfg
    cases hS : findConst "SEASON_RESULTS_URL" ft.2 with
    | none =>
      simp only [hS] at hcfg
      exact Option.noConfusion hcfg
    | some u =>
      cases hR : findConst "REPORT_PATH" ft.2 with
      | none =>
        simp only [hS, hR] at hcfg
        exact Option.noConfusion hcfg
      | some p2 =>
        simp only [hS, hR] at hcfg
        exact ⟨ft, hft, h1, h2, u, p2, hS, hR, (Option.some.inj hcfg).symm⟩
  · intro folder files
    constructor
    · intro h
      unfold mainConfigGate
      rw [h]
      rfl
    · intro h
      unfold mainConfigGate
      rw [if_neg (by simpa [List.isEmpty_iff] using h)]

end Darts
